import Mathlib

/-!
# Lunatic Python: the Lua-in-Python bridge (`src/luainpython.c`)

A shallow embedding of the bridge functions of `luainpython.c` and of the part
of the Lua C API and of the CPython API they use.

Conventions of the embedding.

* The Lua stack is a list with the TOP FIRST: index `-1` is the head of the
  list, index `1` is its last element.
* A result `none` of an operation returning `Option` means that the C code
  reaches behaviour the Lua manual leaves undefined or an unprotected Lua error
  (which ends the process); `some r` means the operation returns `r`.
* A host result is a pair of the returned pointer (`none` is `NULL`) and of the
  pending exception, as in CPython.
* Host allocations (`PyObject_New`, `PyTuple_New`, `PyLong_FromLong`, ...) are
  taken to succeed, so `LuaConvert` never returns `NULL` and the branches of
  the source guarded by `if (!ret)` after a conversion are not reachable.
* A table may have a metatable. `lua_gettable`, `lua_settable` and
  `lua_getglobal` honour the `__index` and `__newindex` handlers of a table as
  the runtime does (`luaV_gettable`, `luaV_settable`); `lua_next`, `lua_rawgeti`
  and `lua_rawseti` are raw. The enumeration order of a table is the order of
  its entry list.
* Stack room. The host enters the bridge on the base frame of the interpreter,
  where the Lua manual promises room for `LUA_MINSTACK` values, and no function
  of the file calls `lua_checkstack`. `LuaObject_iternext`, which leaves one more
  value on the stack at every call, is undefined where it pushes beyond
  `LUA_MINSTACK` values; the other operations are modelled on a stack with room.
* A finite `lua_Number` (a C double) is stored as the integer `n` with value
  `n / 2 ^ 1074`; every finite double has exactly one such `n`.
* The fields `events` and `calls` of the state are ghost fields: they record
  what `luaL_ref`, `luaL_unref` and `lua_pcall` did and are read by no operation.
  The argument `site` of `luaL_ref` is ghost too.
-/

namespace LunaticPython

/-! ## Numbers -/

/-- The number of fractional bits of the fixed-point reading of a double. -/
def FRAC_BITS : Nat := 1074

/-- A `lua_Number` is a C double: `finite n` has the value `n / 2 ^ 1074`. -/
inductive lua_Number where
  | finite (n : Int)
  | inf (negative : Bool)
  | nan
  deriving DecidableEq, Repr

/-- The double with the value of the integer `z` (when `z` is representable). -/
def lua_Number.ofInt (z : Int) : lua_Number := .finite (z * 2 ^ FRAC_BITS)

/-- The value `LONG_MIN` of a 64-bit `long`. -/
def LONG_MIN : Int := -(2 ^ 63)

/-- The value `LONG_MAX` of a 64-bit `long`. -/
def LONG_MAX : Int := 2 ^ 63 - 1

/-- The integer logarithm by binary search: `ilog2 j a acc` is the `r` with
`2 ^ r ≤ a < 2 ^ (r + 1)` when `2 ^ acc ≤ a < 2 ^ (acc + 2 ^ j)`. -/
def ilog2 : Nat → Nat → Nat → Nat
  | 0, _, acc => acc
  | j + 1, a, acc =>
    if 2 ^ (acc + 2 ^ j) ≤ a then ilog2 j a (acc + 2 ^ j) else ilog2 j a acc

/-- The bound of the binary search with 12 steps: `2 ^ 12`. -/
def LOG_BOUND : Nat := 4096

/-- The number of low bits of `a` that do not fit a 53-bit significand: the least
`k` with `a < 2 ^ (53 + k)`, for `a < 2 ^ LOG_BOUND`. -/
def sig_excess (a : Nat) : Nat := ilog2 12 a 0 - 52

/-- Whether `finite n` is a double: its significand has at most 53 bits and its
magnitude is below `2 ^ 1024`. -/
def isDouble (n : Int) : Bool :=
  n.natAbs % 2 ^ sig_excess n.natAbs == 0 && n.natAbs < 2 ^ 2098

/-- The C conversion `(double)z` of a `long`: round to nearest, ties to even, on
a 53-bit significand. The result is an integer, returned as such. -/
def long_to_double (z : Int) : Int :=
  let a := z.natAbs
  let k := sig_excess a
  let q := a / 2 ^ k
  let r := a % 2 ^ k
  let q1 := if 2 * r > 2 ^ k ∨ (2 * r = 2 ^ k ∧ q % 2 = 1) then q + 1 else q
  z.sign * ((q1 * 2 ^ k : Nat) : Int)

/-- The C conversion `(long)num`: truncation toward zero when the truncated value
is a `long`. Otherwise the C standard leaves the conversion undefined and the
value the platform delivers, `oor`, is returned (x86-64 delivers `LONG_MIN`). -/
def double_to_long (oor : Int) : lua_Number → Int
  | .finite n =>
    let t := Int.tdiv n (2 ^ FRAC_BITS)
    if LONG_MIN ≤ t ∧ t ≤ LONG_MAX then t else oor
  | _ => oor

/-- The C comparison `num != (long)num`: the `long` is converted to a double
first, and a NaN differs from everything. -/
def number_ne_long (num : lua_Number) (z : Int) : Bool :=
  match num with
  | .nan => true
  | _ => decide (num ≠ lua_Number.ofInt (long_to_double z))

/-! ## Values of the two runtimes -/

/-- A Lua value. Tables, functions, userdata and threads are references. -/
inductive LuaValue where
  | nil
  | boolean (b : Bool)
  | lightuserdata (p : Nat)
  | number (n : lua_Number)
  | string (s : List Nat)
  | table (id : Nat)
  | function (id : Nat)
  | cfunction (id : Nat)
  | userdata (id : Nat)
  | thread (id : Nat)
  deriving DecidableEq, Repr

/-- The C struct `LuaObject` (the proxy): `ref` is the registry handle of the
wrapped value, `refiter` the handle of the iteration cursor, `0` when absent. -/
structure LuaObject where
  ref : Int
  refiter : Int
  deriving DecidableEq, Repr

/-- A host (Python) value. -/
inductive PyObject where
  | None
  | Bool (b : Bool)
  | Long (i : Int)
  | Float (d : lua_Number)
  | Unicode (utf8 : List Nat)
  | Bytes (s : List Nat)
  | Tuple (items : List PyObject)
  | Lua (o : LuaObject)
  | Other (id : Nat)

/-- The exception classes the bridge raises. -/
inductive PyExc where
  | TypeError
  | ValueError
  | RuntimeError
  | Exception
  deriving DecidableEq, Repr

/-- The argument of a format string. -/
inductive FmtArg where
  | none
  | int (i : Int)
  | lua (v : Option LuaValue)
  deriving DecidableEq, Repr

/-- A pending exception: its class, the format string and the argument. -/
structure PyErr where
  exc : PyExc
  fmt : String
  arg : FmtArg
  deriving DecidableEq, Repr

/-- What a bridge function hands back to CPython: the returned pointer (`none`
is `NULL`) and the pending exception. -/
structure PyResult where
  ret : Option PyObject
  err : Option PyErr

/-! ## The Lua state -/

/-- The two places of `luainpython.c` that call `luaL_ref`: `LuaObject_New`, for
the value a new proxy wraps, and `LuaObject_iternext`, for the cursor. -/
inductive RefSite where
  | proxy_value
  | iter_cursor
  deriving DecidableEq, Repr

/-- A ghost record of a registry operation; a creation records the place of
the call. -/
inductive RegEvent where
  | ref (h : Int) (site : RefSite)
  | unref (h : Int)
  deriving DecidableEq, Repr

/-- The state of one interpreter. -/
structure lua_State where
  /-- the stack, top first -/
  stack : List LuaValue
  /-- the registry entries with an integer key -/
  registry : List (Int × LuaValue)
  /-- the heap of tables: the entries of each table, in enumeration order -/
  tables : List (Nat × List (LuaValue × LuaValue))
  /-- the metatable of each table that has one: the id of the table and the id
  of its metatable -/
  metatables : List (Nat × Nat)
  /-- the id of the table of globals -/
  globals : Nat
  /-- ghost: the references created and released, oldest first -/
  events : List RegEvent
  /-- ghost: the protected calls made, oldest first -/
  calls : List (LuaValue × List LuaValue)

/-- What is not in `luainpython.c`: the foreign runtime, `pythoninlua.c` and the
platform. -/
structure Env where
  /-- the foreign representation `py_convert` pushes for a host value, if any -/
  py_repr : PyObject → Option LuaValue
  /-- the host object a userdata wraps, if it wraps one (`luaPy_to_pobject`) -/
  luaPy_to_pobject : Nat → Option PyObject
  /-- whether `PyUnicode_FromStringAndSize` decodes the bytes -/
  utf8_valid : List Nat → Bool
  /-- running a function value on arguments: the results or the error value -/
  call : LuaValue → List LuaValue → lua_State → Except LuaValue (List LuaValue) × lua_State
  /-- compiling a chunk: the function or the error message -/
  load : List Nat → Except LuaValue LuaValue
  /-- indexing a value that is not a table (its metatable decides) -/
  index : LuaValue → LuaValue → Option LuaValue
  /-- assigning to a field of a value that is not a table (its metatable
  decides); `none` when that raises -/
  newindex : LuaValue → LuaValue → LuaValue → lua_State → Option lua_State
  /-- the primitives `lua_compare` evaluates, which may raise -/
  compare : LuaValue → LuaValue → Nat → Except LuaValue Bool
  /-- what `(long)num` delivers when the value is not a `long` -/
  long_overflow : Int

/-! ## The Lua C API -/

def LUA_REFNIL : Int := -1

/-- The number of values a C function may have on the stack without a call of
`lua_checkstack` (`luaconf.h`). -/
def LUA_MINSTACK : Nat := 20

/-- The limit of the runtime on a chain of `__index` or `__newindex` handlers
that are not functions (`lvm.c`). -/
def MAXTAGLOOP : Nat := 100
def LUA_OPEQ : Nat := 0
def LUA_OPLT : Nat := 1
def LUA_OPLE : Nat := 2
def Py_LT : Int := 0
def Py_LE : Int := 1
def Py_EQ : Int := 2
def Py_NE : Int := 3
def Py_GT : Int := 4
def Py_GE : Int := 5

/-- The value at an acceptable stack index, `none` for an index outside. -/
def index2value (L : lua_State) (idx : Int) : Option LuaValue :=
  if 0 < idx then
    (if idx.toNat ≤ L.stack.length then L.stack[L.stack.length - idx.toNat]? else none)
  else if idx < 0 then L.stack[(-idx).toNat - 1]?
  else none

def lua_gettop (L : lua_State) : Nat := L.stack.length

def lua_push (L : lua_State) (v : LuaValue) : lua_State :=
  { L with stack := v :: L.stack }

def lua_pushnil (L : lua_State) : lua_State := lua_push L .nil

/-- Pushes a copy of the value at `idx` (nil for an index outside the stack). -/
def lua_pushvalue (L : lua_State) (idx : Int) : lua_State :=
  lua_push L ((index2value L idx).getD .nil)

/-- Sets the stack size: a non-negative index is the new size, a negative one
counts from the top; new slots hold nil. -/
def lua_settop (L : lua_State) (idx : Int) : lua_State :=
  let size : Nat := if 0 ≤ idx then idx.toNat else (L.stack.length + 1 - (-idx).toNat)
  { L with stack :=
      List.replicate (size - L.stack.length) LuaValue.nil ++
        L.stack.drop (L.stack.length - size) }

/-- `lua_pop(L, n)`, which `lua.h` defines as `lua_settop(L, -(n)-1)`. -/
def lua_pop (L : lua_State) (n : Int) : lua_State := lua_settop L (-n - 1)

def lua_isnil (L : lua_State) (idx : Int) : Bool :=
  index2value L idx == some .nil

/-- The truth value of a Lua value: false for nil, false and a missing slot. -/
def lua_toboolean (L : lua_State) (idx : Int) : Bool :=
  match index2value L idx with
  | some .nil => false
  | some (.boolean b) => b
  | none => false
  | _ => true

/-- The raw read `t[k]` in a list of entries. -/
def rawget (es : List (LuaValue × LuaValue)) (k : LuaValue) : LuaValue :=
  (es.lookup k).getD .nil

/-- The entries of the table `id`. -/
def table_entries (L : lua_State) (id : Nat) : List (LuaValue × LuaValue) :=
  (L.tables.lookup id).getD []

/-- The registry entry `n` (nil when there is none). -/
def registry_get (r : List (Int × LuaValue)) (n : Int) : LuaValue :=
  (r.lookup n).getD .nil

/-- The registry with entry `n` set to `v` (removed when `v` is nil). -/
def registry_set (r : List (Int × LuaValue)) (n : Int) (v : LuaValue) :
    List (Int × LuaValue) :=
  if v = .nil then r.filter (fun e => e.1 ≠ n)
  else (n, v) :: r.filter (fun e => e.1 ≠ n)

/-- `lua_rawgeti(L, LUA_REGISTRYINDEX, n)`. -/
def lua_rawgeti (L : lua_State) (n : Int) : lua_State :=
  lua_push L (registry_get L.registry n)

/-- `lua_rawseti(L, LUA_REGISTRYINDEX, n)`: stores the top value and pops it. -/
def lua_rawseti (L : lua_State) (n : Int) : lua_State :=
  { L with stack := L.stack.tail,
           registry := registry_set L.registry n (L.stack.headD .nil) }

/-- A key no entry of the registry uses: one more than the largest key in use,
at least `1`. -/
def fresh_ref (r : List (Int × LuaValue)) : Int :=
  r.foldl (fun m e => max m e.1) 0 + 1

/-- `luaL_ref(L, LUA_REGISTRYINDEX)`: pops the top value and returns a unique
integer key under which it is stored; a nil is not stored and gets `LUA_REFNIL`.
The argument `site` is ghost: the place of the call, recorded in the event. -/
def luaL_ref (L : lua_State) (site : RefSite) : Int × lua_State :=
  match L.stack.headD .nil with
  | .nil => (LUA_REFNIL, { L with stack := L.stack.tail })
  | v =>
    let h := fresh_ref L.registry
    (h, { L with stack := L.stack.tail,
                 registry := (h, v) :: L.registry,
                 events := L.events ++ [RegEvent.ref h site] })

/-- `luaL_unref(L, LUA_REGISTRYINDEX, ref)`: removes the entry; nothing is done
for `LUA_NOREF` and `LUA_REFNIL` (negative keys). -/
def luaL_unref (L : lua_State) (ref : Int) : lua_State :=
  if 0 ≤ ref then
    { L with registry := L.registry.filter (fun e => e.1 ≠ ref),
             events := L.events ++ [RegEvent.unref ref] }
  else L

/-- The bytes of `"__index"`. -/
def str_index : List Nat := [95, 95, 105, 110, 100, 101, 120]

/-- The handler of the table `id` for `event`: the raw field of that name in
its metatable, nil when the table has no metatable. -/
def table_metamethod (L : lua_State) (id : Nat) (event : List Nat) : LuaValue :=
  match L.metatables.lookup id with
  | none => .nil
  | some mt => rawget (table_entries L mt) (.string event)

/-- Whether a value is a function (`ttisfunction`). -/
def is_function : LuaValue → Bool
  | .function _ => true
  | .cfunction _ => true
  | _ => false

/-- The entry after the key `k` in enumeration order: `none` when `k` is not a
key, `some none` when `k` is the last key. -/
def next_after : List (LuaValue × LuaValue) → LuaValue → Option (Option (LuaValue × LuaValue))
  | [], _ => none
  | e :: rest, k => if e.1 = k then some rest.head? else next_after rest k

/-- The entry `lua_next` moves to from the key `k` (nil starts the traversal). -/
def table_next (es : List (LuaValue × LuaValue)) (k : LuaValue) :
    Option (Option (LuaValue × LuaValue)) :=
  if k = .nil then some es.head? else next_after es k

/-- `lua_next(L, idx)`: pops a key and pushes the next key and value of the table
at `idx`, returning 1; pushes nothing and returns 0 after the last entry. A
value that is not a table and a key that is not in the table are undefined or
raise. -/
def lua_next (L : lua_State) (idx : Int) : Option (Int × lua_State) :=
  match index2value L idx, L.stack with
  | some (.table id), k :: rest =>
    match table_next (table_entries L id) k with
    | none => none
    | some none => some (0, { L with stack := rest })
    | some (some (k1, v1)) => some (1, { L with stack := v1 :: k1 :: rest })
  | _, _ => none

/-- `lua_tointeger(L, idx)`: the number at `idx` truncated, `0` for another value. -/
def lua_tointeger (L : lua_State) (idx : Int) : Int :=
  match index2value L idx with
  | some (.number (.finite n)) => Int.tdiv n (2 ^ FRAC_BITS)
  | _ => 0

/-- `lua_pushinteger(L, i)`: pushes the number with the value `i`. The source
passes the codes of the comparison operators only, which are doubles. -/
def lua_pushinteger (L : lua_State) (i : Int) : lua_State :=
  lua_push L (.number (lua_Number.ofInt i))

def lua_pushboolean (L : lua_State) (b : Bool) : lua_State :=
  lua_push L (.boolean b)

/-- `lua_insert(L, idx)`: moves the top value to the position `idx`, shifting the
values above that position up. -/
def lua_insert (L : lua_State) (idx : Int) : lua_State :=
  let p : Nat := if idx < 0 then (-idx).toNat - 1 else L.stack.length - idx.toNat
  match L.stack with
  | [] => L
  | v :: rest => { L with stack := rest.take p ++ v :: rest.drop p }

/-- `lua_compare(L, i, j, op)`: `0` when an index is not valid, else the
primitive of the runtime, which may raise. -/
def lua_compare (env : Env) (L : lua_State) (i j : Int) (op : Nat) : Except LuaValue Bool :=
  match index2value L i, index2value L j with
  | some a, some b => env.compare a b op
  | _, _ => .ok false

/-! ## `luainpython.c` -/

/-- `LuaObject_New(L, n)`: a proxy holding a new reference to the value at `n`. -/
def LuaObject_New (L : lua_State) (n : Int) : LuaObject × lua_State :=
  let L1 := lua_pushvalue L n
  let r := luaL_ref L1 .proxy_value
  ({ ref := r.1, refiter := 0 }, r.2)

/-- `LuaConvert(L, n)`: the host value for the Lua value at index `n`. -/
def LuaConvert (env : Env) (L : lua_State) (n : Int) : PyObject × lua_State :=
  match index2value L n with
  -- case LUA_TNIL
  | some .nil => (.None, L)
  -- case LUA_TSTRING
  | some (.string s) => (if env.utf8_valid s then .Unicode s else .Bytes s, L)
  -- case LUA_TNUMBER
  | some (.number num) =>
    if number_ne_long num (double_to_long env.long_overflow num) then (.Float num, L)
    else (.Long (double_to_long env.long_overflow num), L)
  -- case LUA_TBOOLEAN
  | some (.boolean b) => (.Bool b, L)
  -- case LUA_TUSERDATA, falling into the default when no host object is wrapped
  | some (.userdata u) =>
    match env.luaPy_to_pobject u with
    | some o => (o, L)
    | none => let r := LuaObject_New L n; (.Lua r.1, r.2)
  -- default
  | _ => let r := LuaObject_New L n; (.Lua r.1, r.2)

/-- Modelled from the spec: `py_convert` of `pythoninlua.c`, the `to_foreign` of
the Value Converter. It pushes a representation of the host value and returns 1,
or returns 0 and leaves the stack unchanged when the value has none. -/
def py_convert (env : Env) (L : lua_State) (o : PyObject) : Int × lua_State :=
  match env.py_repr o with
  | some v => (1, lua_push L v)
  | none => (0, L)

/-- The C function `LuaObject_pcmp`, run on its own frame `[op, lhs, rhs]`. -/
def LuaObject_pcmp (env : Env) (L : lua_State) : Except LuaValue (Int × lua_State) :=
  let op := lua_tointeger L (-3)
  if op = Py_EQ then
    (lua_compare env L (-2) (-1) LUA_OPEQ).map (fun b => (1, lua_pushboolean L b))
  else if op = Py_NE then
    (lua_compare env L (-2) (-1) LUA_OPEQ).map (fun b => (1, lua_pushboolean L (!b)))
  else if op = Py_GT then
    -- lua_insert, then the code falls through into case Py_LT
    let L1 := lua_insert L (-2)
    (lua_compare env L1 (-2) (-1) LUA_OPLT).map (fun b => (1, lua_pushboolean L1 b))
  else if op = Py_LT then
    (lua_compare env L (-2) (-1) LUA_OPLT).map (fun b => (1, lua_pushboolean L b))
  else if op = Py_GE then
    -- lua_insert, then the code falls through into case Py_LE
    let L1 := lua_insert L (-2)
    (lua_compare env L1 (-2) (-1) LUA_OPLE).map (fun b => (1, lua_pushboolean L1 b))
  else if op = Py_LE then
    (lua_compare env L (-2) (-1) LUA_OPLE).map (fun b => (1, lua_pushboolean L b))
  else .ok (1, L)

/-- The function value `lua_pushcfunction(L, LuaObject_pcmp)` pushes. -/
def LuaObject_pcmp_fn : LuaValue := .cfunction 0

/-- Runs a function value: `LuaObject_pcmp` is the C function above, every
other function belongs to the foreign runtime. -/
def call_function (env : Env) (f : LuaValue) (args : List LuaValue) (L : lua_State) :
    Except LuaValue (List LuaValue) × lua_State :=
  if f = LuaObject_pcmp_fn then
    match LuaObject_pcmp env { L with stack := args.reverse } with
    | .ok r => (.ok (r.2.stack.take r.1.toNat).reverse, L)
    | .error e => (.error e, L)
  else env.call f args L

/-! ## Access to a field through the metatable -/

/-- The read `t[k]` of the runtime (`luaV_gettable`), with `loop` rounds left. A
table is read raw; when that gives nil and the metatable of the table has an
`__index` handler, a handler that is a function is called on `t` and `k` and
another handler is indexed in its turn. For a value that is not a table the
runtime decides. An error (a handler that raises, a chain of `MAXTAGLOOP`
handlers) is `none`: it is raised outside a protected call. -/
def luaV_gettable (env : Env) (L : lua_State) :
    Nat → LuaValue → LuaValue → Option (LuaValue × lua_State)
  | 0, _, _ => none
  | loop + 1, t, k =>
    match t with
    | .table id =>
      let res := rawget (table_entries L id) k
      let tm := table_metamethod L id str_index
      if res ≠ .nil ∨ tm = .nil then some (res, L)
      else if is_function tm then
        match call_function env tm [t, k] L with
        | (.ok rs, L1) => some (rs.headD .nil, L1)
        | (.error _, _) => none
      else luaV_gettable env L loop tm k
    | _ => (env.index t k).map (fun v => (v, L))

/-- `lua_getglobal(L, name)`: pushes the global `name`, read from the table of
globals as `lua_gettable` reads. -/
def lua_getglobal (env : Env) (L : lua_State) (name : List Nat) : Option lua_State :=
  (luaV_gettable env L MAXTAGLOOP (.table L.globals) (.string name)).map
    (fun r => { r.2 with stack := r.1 :: L.stack })

/-- The results a call leaves for `nresults` (`none` is `LUA_MULTRET`). -/
def adjust_results (nresults : Option Nat) (rs : List LuaValue) : List LuaValue :=
  match nresults with
  | none => rs
  | some n => (rs ++ List.replicate n LuaValue.nil).take n

/-- `lua_pcall(L, nargs, nresults, 0)`: pops the function and its `nargs`
arguments; on success pushes the results and returns 0, on an error pushes the
error value and returns a non-zero code. Fewer than `nargs + 1` values on the
stack is undefined. -/
def lua_pcall (env : Env) (L : lua_State) (nargs : Nat) (nresults : Option Nat) :
    Option (Int × lua_State) :=
  match L.stack[nargs]? with
  | none => none
  | some f =>
    let args := (L.stack.take nargs).reverse
    let below := L.stack.drop (nargs + 1)
    match call_function env f args { L with stack := below } with
    | (.ok rs, L1) =>
      some (0, { L1 with stack := (adjust_results nresults rs).reverse ++ below,
                         calls := L.calls ++ [(f, args)] })
    | (.error e, L1) =>
      some (2, { L1 with stack := e :: below, calls := L.calls ++ [(f, args)] })

/-- The loop of `LuaCall` that converts and pushes the arguments `i, i+1, ...`;
`todo` is `nargs - i`. On a failure the stack is cleared and the error returned. -/
def LuaCall_push (env : Env) (items : List PyObject) :
    Nat → Nat → lua_State → Option PyErr × lua_State
  | 0, _, L => (none, L)
  | todo + 1, i, L =>
    match items[i]? with
    | none =>
      (some ⟨.TypeError, "failed to get tuple item #%d", .int i⟩, lua_settop L 0)
    | some arg =>
      let r := py_convert env L arg
      if r.1 = 0 then
        (some ⟨.TypeError, "failed to convert argument #%d", .int i⟩, lua_settop r.2 0)
      else LuaCall_push env items todo (i + 1) r.2

/-- The loop that fills the result tuple: converts the stack slots
`i + 1, i + 2, ...`; `todo` is `nargs - i`. -/
def convert_tuple (env : Env) : Nat → Nat → lua_State → List PyObject × lua_State
  | 0, _, L => ([], L)
  | todo + 1, i, L =>
    let r := LuaConvert env L (i + 1)
    let rest := convert_tuple env todo (i + 1) r.2
    (r.1 :: rest.1, rest.2)

/-- The conversion of the results of a protected call, the same text in
`LuaCall` (lines 157-202) and in `Lua_run` (lines 562-607). -/
def convert_results (env : Env) (L : lua_State) : PyResult × lua_State :=
  let nargs := lua_gettop L
  if nargs = 1 then
    let r := LuaConvert env L 1
    (⟨some r.1, none⟩, lua_settop r.2 0)
  else if nargs > 1 then
    let r := convert_tuple env nargs 0 L
    (⟨some (.Tuple r.1), none⟩, lua_settop r.2 0)
  else (⟨some .None, none⟩, lua_settop L 0)

/-- `LuaCall(L, args)`: the Call Bridge. The callable is on the stack already. -/
def LuaCall (env : Env) (L : lua_State) (args : PyObject) : Option (PyResult × lua_State) :=
  match args with
  | .Tuple items =>
    match LuaCall_push env items items.length 0 L with
    | (some e, L1) => some (⟨none, some e⟩, L1)
    | (none, L1) =>
      match lua_pcall env L1 items.length none with
      | none => none
      | some (rc, L2) =>
        if rc ≠ 0 then
          some (⟨none, some ⟨.Exception, "error: %s", .lua (index2value L2 (-1))⟩⟩, L2)
        else some (convert_results env L2)
  | _ => some (⟨none, some ⟨.TypeError, "tuple expected", .none⟩⟩, lua_settop L 0)

/-- `LuaObject_dealloc(self)`. -/
def LuaObject_dealloc (L : lua_State) (self : LuaObject) : lua_State :=
  let L1 := luaL_unref L self.ref
  if self.refiter ≠ 0 then luaL_unref L1 self.refiter else L1

/-- `LuaObject_richcmp(lhs, rhs, op)`; `lhs` is the proxy the slot belongs to. -/
def LuaObject_richcmp (env : Env) (L : lua_State) (lhs : LuaObject) (rhs : PyObject)
    (op : Int) : Option (PyResult × lua_State) :=
  match rhs with
  | .Lua r =>
    let L1 := lua_push L LuaObject_pcmp_fn
    let L2 := lua_pushinteger L1 op
    let L3 := lua_rawgeti L2 lhs.ref
    let L4 := lua_rawgeti L3 r.ref
    match lua_pcall env L4 3 (some 1) with
    | none => none
    | some (rc, L5) =>
      if rc ≠ 0 then
        some (⟨none, some ⟨.RuntimeError, "%s", .lua (index2value L5 (-1))⟩⟩, L5)
      else some (⟨some (.Bool (lua_toboolean L5 (-1))), none⟩, L5)
  -- if (!LuaObject_Check(rhs)) return Py_False;
  | _ => some (⟨some (.Bool false), none⟩, L)

/-- `LuaObject_call(obj, args)`. -/
def LuaObject_call (env : Env) (L : lua_State) (obj : LuaObject) (args : PyObject) :
    Option (PyResult × lua_State) :=
  let L1 := lua_settop L 0
  let L2 := lua_rawgeti L1 obj.ref
  LuaCall env L2 args

/-- `LuaObject_iternext(obj)`: the returned pointer (`none` is `NULL`, which ends
the iteration since no exception is set), the updated object and the state. The
function pushes the table and the start key, and `lua_next` a key and a value
for the key; nothing is popped below the table before the return and
`lua_checkstack` is not called, so the step is undefined where these pushes go
beyond `LUA_MINSTACK` values. -/
def LuaObject_iternext (env : Env) (L : lua_State) (obj : LuaObject) :
    Option (Option PyObject × LuaObject × lua_State) :=
  let L1 := lua_rawgeti L obj.ref
  let L2 := if obj.refiter = 0 then lua_pushnil L1 else lua_rawgeti L1 obj.refiter
  -- no room for the table and the start key
  if LUA_MINSTACK < L2.stack.length then none else
  match lua_next L2 (-2) with
  | none => none
  | some (more, L3) =>
    if more ≠ 0 then
      -- no room for the value `lua_next` pushed above the key
      if LUA_MINSTACK < L3.stack.length then none else
      -- Remove value.
      let L4 := lua_pop L3 1
      let c := LuaConvert env L4 (-1)
      -- Save key for next iteration.
      if obj.refiter = 0 then
        let r := luaL_ref c.2 .iter_cursor
        some (some c.1, { obj with refiter := r.1 }, r.2)
      else some (some c.1, obj, lua_rawseti c.2 obj.refiter)
    else if obj.refiter ≠ 0 then
      some (none, { obj with refiter := 0 }, luaL_unref L3 obj.refiter)
    else some (none, obj, L3)

/-- `PyArg_ParseTuple(args, "k", &L)`: a tuple of exactly one integer, read as
an `unsigned long`. -/
def PyArg_ParseTuple_k (args : PyObject) : Option Nat :=
  match args with
  | .Tuple [.Long h] => some (h % 2 ^ 64).toNat
  | _ => none

/-- `PyArg_ParseTuple(args, "ks#", &L, &s, &len)`: a tuple of exactly an integer
and a text or byte string. -/
def PyArg_ParseTuple_ks (args : PyObject) : Option (Nat × List Nat) :=
  match args with
  | .Tuple [.Long h, .Unicode s] => some ((h % 2 ^ 64).toNat, s)
  | .Tuple [.Long h, .Bytes s] => some ((h % 2 ^ 64).toNat, s)
  | _ => none

/-- The exception `PyArg_ParseTuple` leaves when it fails. -/
def parse_error : PyErr := ⟨.TypeError, "PyArg_ParseTuple", .none⟩

/-- The bytes of `"return "`. -/
def str_return : List Nat := [114, 101, 116, 117, 114, 110, 32]

/-- The bytes of `"require"`. -/
def str_require : List Nat := [114, 101, 113, 117, 105, 114, 101]

/-- The bytes of `"_G"`. -/
def str_G : List Nat := [95, 71]

/-- `luaL_loadbuffer(L, s, len, "<python>")`: pushes the compiled chunk and
returns 0, or pushes the error message and returns a non-zero code. -/
def luaL_loadbuffer (env : Env) (L : lua_State) (s : List Nat) : Int × lua_State :=
  match env.load s with
  | .ok f => (0, lua_push L f)
  | .error e => (3, lua_push L e)

/-- `Lua_run(args, eval)`; `L` is the state the handle in `args` points to. -/
def Lua_run (env : Env) (L : lua_State) (args : PyObject) (eval : Bool) :
    Option (PyResult × lua_State) :=
  match PyArg_ParseTuple_ks args with
  | none => some (⟨none, some parse_error⟩, L)
  | some (_, s) =>
    let L1 := lua_settop L 0
    let s1 := if eval then str_return ++ s else s
    let r := luaL_loadbuffer env L1 s1
    if r.1 ≠ 0 then
      some (⟨none, some ⟨.RuntimeError, "error loading code: %s",
        .lua (index2value r.2 (-1))⟩⟩, r.2)
    else
      match lua_pcall env r.2 0 none with
      | none => none
      | some (rc, L3) =>
        if rc ≠ 0 then
          some (⟨none, some ⟨.RuntimeError, "error executing code: %s",
            .lua (index2value L3 (-1))⟩⟩, L3)
        else some (convert_results env L3)

/-- `Lua_globals(self, args)`. -/
def Lua_globals (env : Env) (L : lua_State) (args : PyObject) :
    Option (PyResult × lua_State) :=
  match PyArg_ParseTuple_k args with
  | some _ =>
    match lua_getglobal env L str_G with
    | none => none
    | some L1 =>
      if lua_isnil L1 (-1) then
        some (⟨none, some ⟨.RuntimeError, "lost globals reference", .none⟩⟩, lua_pop L1 1)
      else
        let c := LuaConvert env L1 (-1)
        some (⟨some c.1, none⟩, lua_settop c.2 0)
  | none => some (⟨some .None, some parse_error⟩, L)

/-- `Lua_require(self, args)`. -/
def Lua_require (env : Env) (L : lua_State) (args : PyObject) :
    Option (PyResult × lua_State) :=
  match PyArg_ParseTuple_k args with
  | some _ =>
    match lua_getglobal env L str_require with
    | none => none
    | some L1 =>
      if lua_isnil L1 (-1) then
        some (⟨none, some ⟨.RuntimeError, "require is not defined", .none⟩⟩, lua_pop L1 1)
      else LuaCall env L1 args
  | none => some (⟨some .None, some parse_error⟩, L)


/-! ## Definitions used to state the properties -/

/-- The state in which `convert_tuple` converts slot `i + 1`: the state after
the slots `1 .. i` were converted, in order, starting from `L`. -/
def conv_state (env : Env) (L : lua_State) : Nat → lua_State
  | 0 => L
  | i + 1 => (LuaConvert env (conv_state env L i) ((i : Int) + 1)).2

/-- The contract of the Call Bridge for the results `rs` that a protected call
left as the whole stack of `L`: none for no result, the conversion of the single
value for one, and for two or more a tuple whose `i`-th item is the conversion
of the `i`-th result. -/
def results_contract (env : Env) (L : lua_State) (rs : List LuaValue) (r : PyObject) : Prop :=
  (rs = [] → r = .None) ∧
  (∀ v, rs = [v] → index2value L 1 = some v ∧ r = (LuaConvert env L 1).1) ∧
  (2 ≤ rs.length → ∃ ys, r = .Tuple ys ∧ ys.length = rs.length ∧
    ∀ i, i < rs.length →
      index2value (conv_state env L i) ((i : Int) + 1) = rs[i]? ∧
      ys[i]? = some (LuaConvert env (conv_state env L i) ((i : Int) + 1)).1)

/-- The state a successful protected call of `f` on `args` leaves when only the
callable and its arguments were on the stack: the results are the whole stack. -/
def after_call (L L1 : lua_State) (f : LuaValue) (args rs : List LuaValue) : lua_State :=
  { L1 with stack := rs.reverse, calls := L.calls ++ [(f, args)] }

/-- The host driving an iteration: `k` calls of `LuaObject_iternext` in a row on
the same proxy; the returned pointers, oldest first, the proxy and the state. -/
def iterate (env : Env) : Nat → lua_State → LuaObject →
    Option (List (Option PyObject) × LuaObject × lua_State)
  | 0, L, obj => some ([], obj, L)
  | k + 1, L, obj =>
    match LuaObject_iternext env L obj with
    | none => none
    | some (r, obj1, L1) =>
      match iterate env k L1 obj1 with
      | none => none
      | some (rs, obj2, L2) => some (r :: rs, obj2, L2)

/-- The host value `LuaConvert` gives for a Lua value that it converts without
a proxy, that is in the cases of its `switch` that do not reach `LuaObject_New`;
`none` for a value that it wraps in a proxy. -/
def to_host_value (env : Env) (v : LuaValue) : Option PyObject :=
  match v with
  | .nil => some .None
  | .string s => some (if env.utf8_valid s then .Unicode s else .Bytes s)
  | .number num =>
    some (if number_ne_long num (double_to_long env.long_overflow num) then .Float num
      else .Long (double_to_long env.long_overflow num))
  | .boolean b => some (.Bool b)
  | .userdata u => env.luaPy_to_pobject u
  | _ => none

/-- The host value `p` is the conversion of the Lua value `v`, in a state whose
registry is `R`: the host value `LuaConvert` gives for `v` when `v` needs no
proxy, and else a proxy without a cursor whose handle refers to `v` in `R`. -/
def conversion_of (env : Env) (R : List (Int × LuaValue)) (v : LuaValue) (p : PyObject) :
    Prop :=
  match to_host_value env v with
  | some q => p = q
  | none => ∃ h, p = .Lua ⟨h, 0⟩ ∧ registry_get R h = v

/-- The conversion of `v` by a host value that, when it is a proxy, has another
handle than `c`. -/
def conversion_avoiding (env : Env) (R : List (Int × LuaValue)) (c : Int) (v : LuaValue)
    (p : PyObject) : Prop :=
  match to_host_value env v with
  | some q => p = q
  | none => ∃ h, p = .Lua ⟨h, 0⟩ ∧ registry_get R h = v ∧ h ≠ c

/-- Every handle that refers to a value in `R`, the cursor handle `c` apart,
refers to the same value in `R1` and is not the cursor handle `c1`. -/
def registry_stable (R : List (Int × LuaValue)) (c : Int) (R1 : List (Int × LuaValue))
    (c1 : Int) : Prop :=
  ∀ h, registry_get R h ≠ .nil → h ≠ c → registry_get R1 h = registry_get R h ∧ h ≠ c1

/-- The key `lua_next` is given by an iteration step: nil when the proxy has no
cursor, else the value the cursor handle refers to. -/
def cursor_key (L : lua_State) (obj : LuaObject) : LuaValue :=
  if obj.refiter = 0 then .nil else registry_get L.registry obj.refiter

/-- The proxy `obj` wraps the table `tid`, whose entries are `es`, and its cursor
stands behind the entries `done`: there is no cursor when `done` is empty, and
else the cursor handle refers to the key of the last entry of `done`. -/
def cursor_at (L : lua_State) (obj : LuaObject) (tid : Nat)
    (es done : List (LuaValue × LuaValue)) : Prop :=
  registry_get L.registry obj.ref = .table tid ∧
  table_entries L tid = es ∧
  (done = [] → obj.refiter = 0) ∧
  (∀ e, done.getLast? = some e →
    obj.refiter ≠ 0 ∧ obj.refiter ≠ obj.ref ∧ registry_get L.registry obj.refiter = e.1)

/-- Replays one registry event on the list of live handles. Creating a reference
under a handle that is live, and releasing a handle that is not live, are
faults (`none`). -/
def replay_event (live : Option (List Int)) (e : RegEvent) : Option (List Int) :=
  match live, e with
  | none, _ => none
  | some l, .ref h _ => if h ∈ l then none else some (h :: l)
  | some l, .unref h => if h ∈ l then some (l.erase h) else none

/-- Replays a log of registry events from no live handle: the handles that are
live at the end, or `none` when some handle was created while live or released
while not live. -/
def replay (evs : List RegEvent) : Option (List Int) :=
  evs.foldl replay_event (some [])

/-- Whether an event is the creation of the value handle of a proxy. -/
def is_proxy_creation : RegEvent → Bool
  | .ref _ .proxy_value => true
  | _ => false

/-- Of the events since the creation of a proxy (the first event), the events
of that proxy: its creation and every later event that is not the creation of
another proxy, that is, its cursor registrations and all releases. -/
def own_events : List RegEvent → List RegEvent
  | [] => []
  | e :: rest => e :: rest.filter (fun x => !is_proxy_creation x)

/-- The invariant of the registry `R` during the lifetime of a proxy with the
handles `ref` and `refiter` of a value `v`, where `es` are the entries of the
table when `v` is one and `own` are the events of the proxy so far: they replay
without a fault and the live handles are `ref` and, when set, `refiter`. -/
def registry_inv (v : LuaValue) (es : List (LuaValue × LuaValue))
    (R : List (Int × LuaValue)) (ref refiter : Int) (own : List RegEvent) : Prop :=
  registry_get R ref = v ∧ 1 ≤ ref ∧ 0 ≤ refiter ∧
  (refiter ≠ 0 → refiter ≠ ref ∧ ∃ e ∈ es, registry_get R refiter = e.1) ∧
  own.count (.unref ref) = 0 ∧
  ∃ live, replay own = some live ∧ live.Nodup ∧ ref ∈ live ∧
    (refiter ≠ 0 → refiter ∈ live) ∧
    (∀ h ∈ live, registry_get R h ≠ .nil) ∧
    (∀ h ∈ live, h = ref ∨ (refiter ≠ 0 ∧ h = refiter))

/-- The invariant of the state during the lifetime of the proxy `obj`: `base`
are the events before its creation, `evs` the events since, and `C` holds of
the handles of the proxies returned to the host. -/
def lifetime_inv (v : LuaValue) (es : List (LuaValue × LuaValue)) (base : List RegEvent)
    (C : Int → Prop) (L : lua_State) (obj : LuaObject) (evs : List RegEvent) : Prop :=
  (∀ tid, v = .table tid → table_entries L tid = es) ∧
  L.events = base ++ evs ∧ evs ≠ [] ∧
  registry_inv v es L.registry obj.ref obj.refiter (own_events evs) ∧
  (∀ h, RegEvent.ref h .proxy_value ∈ evs.tail → C h)

/-- What `LuaObject_richcmp` hands back when the primitive of the foreign
runtime gave `r`: the truth value, or a `RuntimeError` with the error value. -/
def compare_result (r : Except LuaValue Bool) : PyResult :=
  match r with
  | .ok t => ⟨some (.Bool t), none⟩
  | .error e => ⟨none, some ⟨.RuntimeError, "%s", .lua (some e)⟩⟩

/-- The frame `LuaObject_pcmp` runs on for the operator `op` and the operand
values `va` and `vb`, top first. -/
def pcmp_frame (L : lua_State) (op : Int) (va vb : LuaValue) : lua_State :=
  { L with stack := [vb, va, .number (lua_Number.ofInt op)] }

/-! ## A concrete runtime and state, for evaluating the operations -/

/-- A runtime in which the primitive host values have a foreign representation
and every other host value has none; function 0 returns nothing, function 1
returns its arguments, function 2 returns `true, "a"`, every other function
raises `"boom"`; every chunk compiles to function 2. -/
def demo_env : Env where
  py_repr := fun o => match o with
    | .None => some .nil
    | .Bool b => some (.boolean b)
    | .Long i => some (.number (lua_Number.ofInt i))
    | .Float d => some (.number d)
    | .Unicode s => some (.string s)
    | .Bytes s => some (.string s)
    | _ => none
  luaPy_to_pobject := fun _ => none
  utf8_valid := fun _ => true
  call := fun f args L => match f with
    | .function 0 => (.ok [], L)
    | .function 1 => (.ok args, L)
    | .function 2 => (.ok [.boolean true, .string [97]], L)
    | _ => (.error (.string [98, 111, 111, 109]), L)
  load := fun _ => .ok (.function 2)
  index := fun _ _ => none
  newindex := fun _ _ _ _ => none
  compare := fun a b op => .ok (if op = LUA_OPEQ then decide (a = b) else false)
  long_overflow := LONG_MIN

/-- A state with an empty stack; the registry holds a table with the entries
`"a" ↦ true` and `"b" ↦ false` under the key 1, and the functions 1 and 3 under
the keys 2 and 3. The global `require` is function 1. -/
def demo_state : lua_State where
  stack := []
  registry := [(1, .table 7), (2, .function 1), (3, .function 3)]
  tables := [(7, [(.string [97], .boolean true), (.string [98], .boolean false)]),
             (0, [(.string str_require, .function 1)])]
  metatables := []
  globals := 0
  events := []
  calls := []

/-- The demo state after two iteration steps on the proxy of the table: the
cursor handle 4 refers to the last key `"b"`, and each step left the table on
the stack. -/
def demo_state_last : lua_State :=
  { demo_state with
      stack := [.table 7, .table 7],
      registry := (4, .string [98]) :: demo_state.registry,
      events := [.ref 4 .iter_cursor] }

/-- The demo runtime with a compiler that rejects every chunk with the message
`"bad"`. -/
def demo_env_reject : Env :=
  { demo_env with load := fun _ => .error (.string [98, 97, 100]) }

/-- The demo runtime on a platform where the conversion `(long)num` of a number
above the range of `long` saturates to `LONG_MAX`, as on AArch64. -/
def demo_env_saturating : Env :=
  { demo_env with long_overflow := LONG_MAX }

theorem luaL_ref_stack (L : lua_State) (site : RefSite) :
    (luaL_ref L site).2.stack = L.stack.tail := by
  unfold luaL_ref
  split <;> rfl

theorem LuaObject_New_stack (L : lua_State) (n : Int) :
    (LuaObject_New L n).2.stack = L.stack := by
  simp [LuaObject_New, luaL_ref_stack, lua_pushvalue, lua_push]

theorem LuaConvert_stack (env : Env) (L : lua_State) (n : Int) :
    (LuaConvert env L n).2.stack = L.stack := by
  unfold LuaConvert
  split
  · rfl
  · rfl
  · split <;> rfl
  · rfl
  · split
    · rfl
    · exact LuaObject_New_stack L n
  · exact LuaObject_New_stack L n

theorem conv_state_stack (env : Env) (L : lua_State) (i : Nat) :
    (conv_state env L i).stack = L.stack := by
  induction i with
  | zero => rfl
  | succ i ih => simp [conv_state, LuaConvert_stack, ih]

/-! ## The Call Bridge -/

theorem LuaCall_push_ok (env : Env) (items : List PyObject) :
    ∀ (todo i : Nat) (L : lua_State) (ws : List LuaValue),
      i + todo = items.length →
      (items.drop i).map env.py_repr = ws.map some →
      LuaCall_push env items todo i L = (none, { L with stack := ws.reverse ++ L.stack }) := by
  intro todo
  induction todo with
  | zero =>
    intro i L ws hlen hmap
    have hi : items.length ≤ i := by omega
    rw [List.drop_of_length_le hi] at hmap
    cases ws with
    | nil => rfl
    | cons w ws => simp at hmap
  | succ todo ih =>
    intro i L ws hlen hmap
    have hi : i < items.length := by omega
    rw [List.drop_eq_getElem_cons hi] at hmap
    cases ws with
    | nil => simp at hmap; omega
    | cons w ws =>
      simp only [List.map_cons, List.cons.injEq] at hmap
      obtain ⟨hw, hrest⟩ := hmap
      have hget : items[i]? = some items[i] := List.getElem?_eq_getElem hi
      have hstep := ih (i + 1) { L with stack := w :: L.stack } ws (by omega) hrest
      simp only [LuaCall_push, hget, py_convert, hw, lua_push]
      simp [hstep]

theorem lua_pcall_eq (env : Env) (L : lua_State) (f : LuaValue) (ws below : List LuaValue)
    (nresults : Option Nat) (h : L.stack = ws.reverse ++ f :: below) :
    lua_pcall env L ws.length nresults =
      match call_function env f ws { L with stack := below } with
      | (.ok rs, L1) =>
        some (0, { L1 with stack := (adjust_results nresults rs).reverse ++ below,
                           calls := L.calls ++ [(f, ws)] })
      | (.error e, L1) =>
        some (2, { L1 with stack := e :: below, calls := L.calls ++ [(f, ws)] }) := by
  have h1 : L.stack[ws.length]? = some f := by
    rw [h, List.getElem?_append_right (by simp)]
    simp
  have h2 : (L.stack.take ws.length).reverse = ws := by
    have : ws.length = ws.reverse.length := by simp
    rw [h, this, List.take_left]
    simp
  have h3 : L.stack.drop (ws.length + 1) = below := by
    have : ws.length + 1 = ws.reverse.length + 1 := by simp
    rw [h, this, ← List.drop_drop, List.drop_left]
    rfl
  simp only [lua_pcall, h1, h2, h3]

theorem convert_tuple_eq (env : Env) (L0 : lua_State) :
    ∀ (todo i : Nat),
      convert_tuple env todo i (conv_state env L0 i) =
        ((List.range todo).map
            (fun j => (LuaConvert env (conv_state env L0 (i + j)) (((i + j : Nat) : Int) + 1)).1),
          conv_state env L0 (i + todo)) := by
  intro todo
  induction todo with
  | zero => intro i; simp [convert_tuple]
  | succ todo ih =>
    intro i
    have hstate : (LuaConvert env (conv_state env L0 i) ((i : Int) + 1)).2 =
        conv_state env L0 (i + 1) := rfl
    simp only [convert_tuple, hstate, ih (i + 1), List.range_succ_eq_map, List.map_cons,
      List.map_map, Nat.add_zero]
    refine Prod.ext ?_ ?_
    · simp only [List.cons.injEq, true_and]
      apply List.map_congr_left
      intro j _
      simp only [Function.comp, Nat.succ_eq_add_one]
      have : i + 1 + j = i + (j + 1) := by omega
      rw [this]
    · simp only
      have : i + 1 + todo = i + (todo + 1) := by omega
      rw [this]

theorem index2value_pos (L : lua_State) (rs : List LuaValue) (i : Nat)
    (h : L.stack = rs.reverse) (hi : i < rs.length) :
    index2value L ((i : Int) + 1) = rs[i]? := by
  have h0 : (0 : Int) < (i : Int) + 1 := by omega
  have h1 : ((i : Int) + 1).toNat = i + 1 := by omega
  simp only [index2value, h0, if_true, h1, h, List.length_reverse]
  rw [if_pos (by omega)]
  rw [List.getElem?_reverse (by omega)]
  congr 1
  omega

theorem convert_results_contract (env : Env) (L : lua_State) (rs : List LuaValue)
    (h : L.stack = rs.reverse) :
    ∃ r, convert_results env L =
        (⟨some r, none⟩, lua_settop (conv_state env L (if rs.length = 1 then 1 else
          if 1 < rs.length then rs.length else 0)) 0) ∧
      results_contract env L rs r := by
  have hlen : lua_gettop L = rs.length := by simp [lua_gettop, h]
  rcases Nat.lt_trichotomy rs.length 1 with h0 | h1 | h2
  · -- no result
    have hnil : rs = [] := List.length_eq_zero.mp (by omega)
    refine ⟨.None, ?_, ?_⟩
    · simp [convert_results, hlen, hnil, conv_state]
    · refine ⟨fun _ => rfl, ?_, ?_⟩
      · intro v hv; simp [hnil] at hv
      · intro h2; simp [hnil] at h2
  · -- one result
    refine ⟨(LuaConvert env L 1).1, ?_, ?_⟩
    · simp [convert_results, hlen, h1, conv_state]
    · refine ⟨?_, ?_, ?_⟩
      · intro hnil; simp [hnil] at h1
      · intro v hv
        refine ⟨?_, rfl⟩
        have := index2value_pos L rs 0 h (by omega)
        simpa [hv] using this
      · intro h2; omega
  · -- two or more results
    have hne : rs.length ≠ 1 := by omega
    have htup := convert_tuple_eq env L rs.length 0
    simp only [conv_state, Nat.zero_add] at htup
    refine ⟨.Tuple ((List.range rs.length).map
      (fun j => (LuaConvert env (conv_state env L j) (((j : Nat) : Int) + 1)).1)), ?_, ?_⟩
    · simp [convert_results, hlen, hne, h2, htup]
    · refine ⟨?_, ?_, ?_⟩
      · intro hnil; simp [hnil] at h2
      · intro v hv; simp [hv] at h2
      · intro _
        refine ⟨_, rfl, by simp, ?_⟩
        intro i hi
        refine ⟨index2value_pos _ rs i ?_ hi, ?_⟩
        · rw [conv_state_stack]; exact h
        · simp [List.getElem?_map, List.getElem?_range hi]

theorem lua_settop_zero (L : lua_State) : lua_settop L 0 = { L with stack := [] } := by
  simp [lua_settop]

/-- C1. A successful protected call made by `LuaCall`, started with only the
callable on the stack, and one made by `Lua_run` return: none when the call left
no result, the conversion of the single value when it left one, and a tuple of
the conversions of the results, in order, when it left two or more. -/
theorem call_results_contract :
    (∀ (env : Env) (L L1 : lua_State) (f : LuaValue) (items : List PyObject)
        (ws rs : List LuaValue),
      L.stack = [f] →
      items.map env.py_repr = ws.map some →
      call_function env f ws { L with stack := [] } = (.ok rs, L1) →
      ∃ r L2, LuaCall env L (.Tuple items) = some (⟨some r, none⟩, L2) ∧
        results_contract env (after_call L L1 f ws rs) rs r) ∧
    (∀ (env : Env) (L L1 : lua_State) (args : PyObject) (eval : Bool) (h : Nat)
        (s : List Nat) (f : LuaValue) (rs : List LuaValue),
      PyArg_ParseTuple_ks args = some (h, s) →
      env.load (if eval then str_return ++ s else s) = .ok f →
      call_function env f [] { L with stack := [] } = (.ok rs, L1) →
      ∃ r L2, Lua_run env L args eval = some (⟨some r, none⟩, L2) ∧
        results_contract env (after_call L L1 f [] rs) rs r) := by
  constructor
  · intro env L L1 f items ws rs hstack hmap hcall
    have hlen : items.length = ws.length := by
      have := congrArg List.length hmap
      simpa using this
    have hpush := LuaCall_push_ok env items items.length 0 L ws (by simp) (by simpa using hmap)
    have hpc := lua_pcall_eq env { L with stack := ws.reverse ++ L.stack } f ws [] none
      (by simp [hstack])
    simp only [hcall] at hpc
    obtain ⟨r, hr, hcontract⟩ := convert_results_contract env (after_call L L1 f ws rs) rs rfl
    refine ⟨r, (convert_results env (after_call L L1 f ws rs)).2, ?_, hcontract⟩
    have hfin : LuaCall env L (.Tuple items) =
        some (convert_results env (after_call L L1 f ws rs)) := by
      rw [hlen] at hpush
      simp only [LuaCall, hlen, hpush, hpc]
      simp [adjust_results, after_call]
    rw [hfin, hr]
  · intro env L L1 args eval h s f rs hparse hload hcall
    have hpc := lua_pcall_eq env (lua_push (lua_settop L 0) f) f [] [] none
      (by simp [lua_push, lua_settop])
    have hst : ({ lua_push (lua_settop L 0) f with stack := [] } : lua_State) =
        { L with stack := [] } := by simp [lua_push, lua_settop]
    simp only [hst, hcall, List.length_nil] at hpc
    obtain ⟨r, hr, hcontract⟩ := convert_results_contract env (after_call L L1 f [] rs) rs rfl
    refine ⟨r, (convert_results env (after_call L L1 f [] rs)).2, ?_, hcontract⟩
    have hfin : Lua_run env L args eval =
        some (convert_results env (after_call L L1 f [] rs)) := by
      simp only [Lua_run, hparse, luaL_loadbuffer, hload, hpc]
      simp [adjust_results, after_call, lua_push, lua_settop]
    rw [hfin, hr]

/-- C1 at a call of the demo function that returns its two arguments, and at
a run of a chunk that returns two values. -/
theorem call_results_contract_witness :
    (∃ r L2, LuaCall demo_env (lua_rawgeti demo_state 2)
        (.Tuple [.Bool true, .Unicode [97]]) = some (⟨some r, none⟩, L2) ∧
      results_contract demo_env
        (after_call (lua_rawgeti demo_state 2) demo_state (.function 1)
          [.boolean true, .string [97]] [.boolean true, .string [97]])
        [.boolean true, .string [97]] r) ∧
    (∃ r L2, Lua_run demo_env demo_state (.Tuple [.Long 0, .Unicode [120]]) true =
        some (⟨some r, none⟩, L2) ∧
      results_contract demo_env
        (after_call demo_state demo_state (.function 2) [] [.boolean true, .string [97]])
        [.boolean true, .string [97]] r) :=
  ⟨call_results_contract.1 demo_env (lua_rawgeti demo_state 2) demo_state (.function 1)
    [.Bool true, .Unicode [97]] [.boolean true, .string [97]] [.boolean true, .string [97]]
    rfl rfl rfl,
   call_results_contract.2 demo_env demo_state demo_state (.Tuple [.Long 0, .Unicode [120]])
    true 0 [120] (.function 2) [.boolean true, .string [97]] rfl rfl rfl⟩

/-! ## Stack indices -/

theorem index2value_top (L : lua_State) (a : LuaValue) (s : List LuaValue)
    (h : L.stack = a :: s) : index2value L (-1) = some a := by
  simp [index2value, h]

theorem index2value_second (L : lua_State) (a b : LuaValue) (s : List LuaValue)
    (h : L.stack = a :: b :: s) : index2value L (-2) = some b := by
  simp [index2value, h]

theorem index2value_third (L : lua_State) (a b c : LuaValue) (s : List LuaValue)
    (h : L.stack = a :: b :: c :: s) : index2value L (-3) = some c := by
  simp [index2value, h]

/-! ## The registry -/

theorem foldl_max_le (r : List (Int × LuaValue)) :
    ∀ (m : Int), m ≤ r.foldl (fun m e => max m e.1) m ∧
      ∀ e ∈ r, e.1 ≤ r.foldl (fun m e => max m e.1) m := by
  induction r with
  | nil => intro m; simp
  | cons a r ih =>
    intro m
    have h := ih (max m a.1)
    simp only [List.foldl_cons, List.mem_cons, forall_eq_or_imp]
    refine ⟨le_trans (le_max_left _ _) h.1, le_trans (le_max_right _ _) h.1, h.2⟩

theorem fresh_ref_pos (r : List (Int × LuaValue)) : 1 ≤ fresh_ref r := by
  have := (foldl_max_le r 0).1
  unfold fresh_ref
  omega

theorem fresh_ref_not_key (r : List (Int × LuaValue)) (e : Int × LuaValue) (he : e ∈ r) :
    e.1 ≠ fresh_ref r := by
  have := (foldl_max_le r 0).2 e he
  unfold fresh_ref
  omega

theorem lookup_some_mem (r : List (Int × LuaValue)) (n : Int) (v : LuaValue)
    (h : r.lookup n = some v) : (n, v) ∈ r := by
  induction r with
  | nil => simp at h
  | cons a r ih =>
    obtain ⟨a1, a2⟩ := a
    by_cases hn : n = a1
    · subst hn
      simp at h
      simp [h]
    · have hb : (n == a1) = false := by simpa using hn
      simp only [List.lookup_cons, hb] at h
      exact List.mem_cons_of_mem _ (ih h)

theorem fresh_ref_ne (r : List (Int × LuaValue)) (n : Int)
    (h : registry_get r n ≠ .nil) : n ≠ fresh_ref r := by
  unfold registry_get at h
  cases hl : r.lookup n with
  | none => simp [hl] at h
  | some v => exact fresh_ref_not_key r (n, v) (lookup_some_mem r n v hl)

theorem registry_get_cons_self (r : List (Int × LuaValue)) (n : Int) (v : LuaValue) :
    registry_get ((n, v) :: r) n = v := by
  simp [registry_get, List.lookup_cons]

theorem registry_get_cons_ne (r : List (Int × LuaValue)) (n m : Int) (v : LuaValue)
    (h : m ≠ n) : registry_get ((n, v) :: r) m = registry_get r m := by
  have hb : (m == n) = false := by simpa using h
  simp [registry_get, List.lookup_cons, hb]

theorem lookup_filter_ne (r : List (Int × LuaValue)) (n m : Int) (h : m ≠ n) :
    (r.filter (fun e => e.1 ≠ n)).lookup m = r.lookup m := by
  induction r with
  | nil => rfl
  | cons a r ih =>
    obtain ⟨a1, a2⟩ := a
    by_cases ha : a1 = n
    · subst ha
      have hb : (m == a1) = false := by simpa using h
      simp only [ne_eq, decide_not] at ih
      simp [List.filter_cons, List.lookup_cons, hb, ih]
    · by_cases hm : m = a1
      · subst hm
        simp [List.filter_cons, ha, List.lookup_cons]
      · have hb : (m == a1) = false := by simpa using hm
        simp only [ne_eq, decide_not] at ih
        simp [List.filter_cons, ha, List.lookup_cons, hb, ih]

theorem registry_get_filter_ne (r : List (Int × LuaValue)) (n m : Int) (h : m ≠ n) :
    registry_get (r.filter (fun e => e.1 ≠ n)) m = registry_get r m := by
  simp only [registry_get, lookup_filter_ne r n m h]

theorem registry_get_set_self (r : List (Int × LuaValue)) (n : Int) (v : LuaValue)
    (hv : v ≠ .nil) : registry_get (registry_set r n v) n = v := by
  simp [registry_set, hv, registry_get_cons_self]

theorem registry_get_set_ne (r : List (Int × LuaValue)) (n m : Int) (v : LuaValue)
    (h : m ≠ n) : registry_get (registry_set r n v) m = registry_get r m := by
  unfold registry_set
  split
  · exact registry_get_filter_ne r n m h
  · rw [registry_get_cons_ne _ _ _ _ h]
    exact registry_get_filter_ne r n m h

/-- What a conversion does to the state: nothing, or one new reference to the
converted value, held by the proxy it returns. -/
theorem LuaConvert_effect (env : Env) (S : lua_State) (n : Int) :
    (LuaConvert env S n).2 = S ∨
    ∃ v, index2value S n = some v ∧ v ≠ .nil ∧
      LuaConvert env S n = (.Lua ⟨fresh_ref S.registry, 0⟩,
        { S with registry := (fresh_ref S.registry, v) :: S.registry,
                 events := S.events ++ [.ref (fresh_ref S.registry) .proxy_value] }) := by
  cases h : index2value S n with
  | none => left; simp [LuaConvert, h, LuaObject_New, lua_pushvalue, luaL_ref, lua_push]
  | some v =>
    cases v with
    | nil => left; simp [LuaConvert, h]
    | boolean b => left; simp [LuaConvert, h]
    | number x => left; simp only [LuaConvert, h]; split <;> rfl
    | string s => left; simp [LuaConvert, h]
    | userdata u =>
      cases hu : env.luaPy_to_pobject u with
      | some o => left; simp [LuaConvert, h, hu]
      | none =>
        right
        exact ⟨_, rfl, by simp, by
          simp [LuaConvert, h, hu, LuaObject_New, lua_pushvalue, luaL_ref, lua_push]⟩
    | lightuserdata p =>
      right
      exact ⟨_, rfl, by simp, by
        simp [LuaConvert, h, LuaObject_New, lua_pushvalue, luaL_ref, lua_push]⟩
    | table t =>
      right
      exact ⟨_, rfl, by simp, by
        simp [LuaConvert, h, LuaObject_New, lua_pushvalue, luaL_ref, lua_push]⟩
    | function t =>
      right
      exact ⟨_, rfl, by simp, by
        simp [LuaConvert, h, LuaObject_New, lua_pushvalue, luaL_ref, lua_push]⟩
    | cfunction t =>
      right
      exact ⟨_, rfl, by simp, by
        simp [LuaConvert, h, LuaObject_New, lua_pushvalue, luaL_ref, lua_push]⟩
    | thread t =>
      right
      exact ⟨_, rfl, by simp, by
        simp [LuaConvert, h, LuaObject_New, lua_pushvalue, luaL_ref, lua_push]⟩

theorem LuaConvert_tables (env : Env) (S : lua_State) (n : Int) :
    (LuaConvert env S n).2.tables = S.tables := by
  rcases LuaConvert_effect env S n with h | ⟨v, _, _, h⟩
  · rw [h]
  · rw [h]

theorem LuaConvert_registry_get (env : Env) (S : lua_State) (n m : Int)
    (hm : registry_get S.registry m ≠ .nil) :
    registry_get (LuaConvert env S n).2.registry m = registry_get S.registry m := by
  rcases LuaConvert_effect env S n with h | ⟨v, _, _, h⟩
  · rw [h]
  · rw [h]
    exact registry_get_cons_ne _ _ _ _ (fresh_ref_ne _ _ hm)


/-! ## Iteration: one step -/

theorem lua_next_frame (L : lua_State) (tid : Nat) (k : LuaValue) (rest : List LuaValue)
    (h : L.stack = k :: .table tid :: rest) :
    lua_next L (-2) =
      match table_next (table_entries L tid) k with
      | none => none
      | some none => some (0, { L with stack := .table tid :: rest })
      | some (some (k1, v1)) => some (1, { L with stack := v1 :: k1 :: .table tid :: rest }) := by
  simp only [lua_next, index2value_second L _ _ _ h, h]

/-- One step of the iteration on a proxy of the table `tid`, spelled out. -/
theorem LuaObject_iternext_eq (env : Env) (L : lua_State) (obj : LuaObject) (tid : Nat)
    (hreg : registry_get L.registry obj.ref = .table tid) :
    LuaObject_iternext env L obj =
      if LUA_MINSTACK < L.stack.length + 2 then none else
      match table_next (table_entries L tid)
          (if obj.refiter = 0 then .nil else registry_get L.registry obj.refiter) with
      | none => none
      | some none =>
        if obj.refiter ≠ 0 then
          some (none, { obj with refiter := 0 },
            luaL_unref { L with stack := .table tid :: L.stack } obj.refiter)
        else some (none, obj, { L with stack := .table tid :: L.stack })
      | some (some (k1, _)) =>
        if LUA_MINSTACK < L.stack.length + 3 then none else
        if obj.refiter = 0 then
          some (some (LuaConvert env { L with stack := k1 :: .table tid :: L.stack } (-1)).1,
            { obj with refiter :=
                (luaL_ref (LuaConvert env { L with stack := k1 :: .table tid :: L.stack } (-1)).2
                  .iter_cursor).1 },
            (luaL_ref (LuaConvert env { L with stack := k1 :: .table tid :: L.stack } (-1)).2
              .iter_cursor).2)
        else
          some (some (LuaConvert env { L with stack := k1 :: .table tid :: L.stack } (-1)).1, obj,
            lua_rawseti (LuaConvert env { L with stack := k1 :: .table tid :: L.stack } (-1)).2
              obj.refiter) := by
  have hnext := lua_next_frame
    (if obj.refiter = 0 then lua_pushnil (lua_rawgeti L obj.ref)
      else lua_rawgeti (lua_rawgeti L obj.ref) obj.refiter) tid
    (if obj.refiter = 0 then .nil else registry_get L.registry obj.refiter) L.stack
    (by split <;> simp [lua_pushnil, lua_rawgeti, lua_push, hreg])
  have htab : table_entries
      (if obj.refiter = 0 then lua_pushnil (lua_rawgeti L obj.ref)
        else lua_rawgeti (lua_rawgeti L obj.ref) obj.refiter) tid = table_entries L tid := by
    split <;> rfl
  have hlen : (if obj.refiter = 0 then lua_pushnil (lua_rawgeti L obj.ref)
        else lua_rawgeti (lua_rawgeti L obj.ref) obj.refiter).stack.length =
      L.stack.length + 2 := by
    split <;> simp [lua_pushnil, lua_rawgeti, lua_push]
  rw [htab] at hnext
  unfold LuaObject_iternext
  simp only [hnext, hlen]
  by_cases hroom : LUA_MINSTACK < L.stack.length + 2
  · simp only [hroom, if_true]
  · simp only [hroom, if_false]
    cases hcase : table_next (table_entries L tid)
        (if obj.refiter = 0 then .nil else registry_get L.registry obj.refiter) with
    | none => rfl
    | some o =>
      cases o with
      | none =>
        by_cases h0 : obj.refiter = 0
        · simp [h0, lua_pushnil, lua_rawgeti, lua_push]
        · simp [h0, lua_pushnil, lua_rawgeti, lua_push]
      | some kv =>
        obtain ⟨k1, v1⟩ := kv
        by_cases hroom3 : LUA_MINSTACK < L.stack.length + 3
        · by_cases h0 : obj.refiter = 0
          · simp [h0, hroom3, lua_pushnil, lua_rawgeti, lua_push]
          · simp [h0, hroom3, lua_pushnil, lua_rawgeti, lua_push]
        · by_cases h0 : obj.refiter = 0
          · simp [h0, hroom3, lua_pushnil, lua_rawgeti, lua_push, lua_pop, lua_settop]
          · simp [h0, hroom3, lua_pushnil, lua_rawgeti, lua_push, lua_pop, lua_settop]

/-! ## The conversion of a value -/

theorem luaL_ref_eq (L : lua_State) (site : RefSite) (v : LuaValue) (s : List LuaValue)
    (h : L.stack = v :: s) (hv : v ≠ .nil) :
    luaL_ref L site = (fresh_ref L.registry,
      { L with stack := s, registry := (fresh_ref L.registry, v) :: L.registry,
               events := L.events ++ [.ref (fresh_ref L.registry) site] }) := by
  unfold luaL_ref
  rw [h]
  cases v <;> simp at hv ⊢

/-- The creation of a proxy for a value that is not nil. -/
theorem LuaObject_New_eq (L : lua_State) (n : Int) (v : LuaValue)
    (hv : index2value L n = some v) (hnn : v ≠ .nil) :
    LuaObject_New L n = (⟨fresh_ref L.registry, 0⟩,
      { L with registry := (fresh_ref L.registry, v) :: L.registry,
               events := L.events ++ [.ref (fresh_ref L.registry) .proxy_value] }) := by
  have h := luaL_ref_eq (lua_pushvalue L n) .proxy_value v L.stack
    (by simp [lua_pushvalue, lua_push, hv]) hnn
  simp only [LuaObject_New, h]
  rfl

/-- `LuaConvert` on a slot that holds `v`: the host value of `v` when it has
one, and else a new proxy. -/
theorem LuaConvert_of_value (env : Env) (S : lua_State) (n : Int) (v : LuaValue)
    (h : index2value S n = some v) :
    LuaConvert env S n =
      match to_host_value env v with
      | some p => (p, S)
      | none => (.Lua (LuaObject_New S n).1, (LuaObject_New S n).2) := by
  cases v with
  | number x => simp only [LuaConvert, h, to_host_value]; split <;> rfl
  | userdata u =>
    cases hu : env.luaPy_to_pobject u <;> simp [LuaConvert, h, to_host_value, hu]
  | _ => simp [LuaConvert, h, to_host_value]

theorem to_host_value_none_ne_nil (env : Env) (v : LuaValue)
    (h : to_host_value env v = none) : v ≠ .nil := by
  intro hv
  subst hv
  simp [to_host_value] at h

/-- The value `LuaConvert` returns is the conversion of the value in the slot,
in the registry it leaves. -/
theorem LuaConvert_conversion_of (env : Env) (S : lua_State) (n : Int) (v : LuaValue)
    (h : index2value S n = some v) :
    conversion_of env (LuaConvert env S n).2.registry v (LuaConvert env S n).1 := by
  rw [LuaConvert_of_value env S n v h]
  unfold conversion_of
  cases hv : to_host_value env v with
  | some p => rfl
  | none =>
    have hnn := to_host_value_none_ne_nil env v hv
    rw [LuaObject_New_eq S n v h hnn]
    exact ⟨fresh_ref S.registry, rfl, registry_get_cons_self _ _ _⟩

/-! ## Iteration: the cursor -/

theorem next_after_append (pre rest : List (LuaValue × LuaValue)) (e : LuaValue × LuaValue)
    (h : e.1 ∉ pre.map Prod.fst) :
    next_after (pre ++ e :: rest) e.1 = some rest.head? := by
  induction pre with
  | nil => simp [next_after]
  | cons a pre ih =>
    simp only [List.map_cons, List.mem_cons, not_or] at h
    have ha : ¬ a.1 = e.1 := fun hh => h.1 hh.symm
    simp [next_after, ha, ih h.2]

/-- The entry `lua_next` moves to when the cursor stands behind `done`. -/
theorem table_next_at (es done suf : List (LuaValue × LuaValue)) (hes : es = done ++ suf)
    (hnd : (es.map Prod.fst).Nodup) (hnn : ∀ e ∈ es, e.1 ≠ .nil) :
    (done = [] → table_next es .nil = some suf.head?) ∧
    (∀ e, done.getLast? = some e → table_next es e.1 = some suf.head?) := by
  constructor
  · intro hd
    subst hd
    simp [table_next, hes]
  · intro e he
    have hdone : done = done.dropLast ++ [e] := by
      have := List.dropLast_append_getLast? e he
      exact this.symm
    have hes2 : es = done.dropLast ++ e :: suf := by
      rw [hes]
      conv_lhs => rw [hdone]
      simp
    have hmem : e ∈ es := by rw [hes2]; simp
    have hne : e.1 ≠ .nil := hnn e hmem
    have hnot : e.1 ∉ (done.dropLast).map Prod.fst := by
      rw [hes2] at hnd
      simp only [List.map_append, List.map_cons] at hnd
      have := (List.nodup_append.mp hnd).2.2
      intro hin
      exact this hin (List.mem_cons_self _ _)
    simp only [table_next, hne, if_false]
    rw [hes2]
    exact next_after_append _ _ _ hnot

theorem table_entries_congr (L1 L2 : lua_State) (tid : Nat) (h : L1.tables = L2.tables) :
    table_entries L1 tid = table_entries L2 tid := by
  simp [table_entries, h]

theorem luaL_unref_registry_get (L : lua_State) (c m : Int) (h : m ≠ c) :
    registry_get (luaL_unref L c).registry m = registry_get L.registry m := by
  unfold luaL_unref
  split
  · exact registry_get_filter_ne _ _ _ h
  · rfl

theorem luaL_unref_tables (L : lua_State) (c : Int) : (luaL_unref L c).tables = L.tables := by
  unfold luaL_unref
  split <;> rfl

theorem luaL_unref_stack (L : lua_State) (c : Int) : (luaL_unref L c).stack = L.stack := by
  unfold luaL_unref
  split <;> rfl

theorem conversion_avoiding_of (env : Env) (R : List (Int × LuaValue)) (c : Int)
    (v : LuaValue) (p : PyObject) (h : conversion_avoiding env R c v p) :
    conversion_of env R v p := by
  unfold conversion_avoiding at h
  unfold conversion_of
  cases hv : to_host_value env v with
  | some q => simpa [hv] using h
  | none =>
    rw [hv] at h
    obtain ⟨x, hx, hr, _⟩ := h
    exact ⟨x, hx, hr⟩

/-- A conversion stays one while the registry is stable. -/
theorem conversion_avoiding_stable (env : Env) (R R1 : List (Int × LuaValue)) (c c1 : Int)
    (v : LuaValue) (p : PyObject) (h : conversion_avoiding env R c v p)
    (hst : registry_stable R c R1 c1) : conversion_avoiding env R1 c1 v p := by
  unfold conversion_avoiding at h ⊢
  cases hv : to_host_value env v with
  | some q => simpa [hv] using h
  | none =>
    rw [hv] at h
    obtain ⟨x, hx, hr, hc⟩ := h
    have hnn := to_host_value_none_ne_nil env v hv
    have := hst x (by rw [hr]; exact hnn) hc
    exact ⟨x, hx, by rw [this.1, hr], this.2⟩

theorem registry_stable_trans (R R1 R2 : List (Int × LuaValue)) (c c1 c2 : Int)
    (h1 : registry_stable R c R1 c1) (h2 : registry_stable R1 c1 R2 c2) :
    registry_stable R c R2 c2 := by
  intro h hh hc
  obtain ⟨ha, hb⟩ := h1 h hh hc
  obtain ⟨hc2, hd⟩ := h2 h (by rw [ha]; exact hh) hb
  exact ⟨by rw [hc2, ha], hd⟩

/-- What a conversion leaves: the converted value stands for the value of the
slot by a handle other than any handle `c` in use, and the registry is stable. -/
theorem LuaConvert_avoiding (env : Env) (S : lua_State) (n : Int) (v : LuaValue) (c : Int)
    (h : index2value S n = some v) (hc : registry_get S.registry c ≠ .nil ∨ c ≤ 0) :
    conversion_avoiding env (LuaConvert env S n).2.registry c v (LuaConvert env S n).1 ∧
    registry_stable S.registry c (LuaConvert env S n).2.registry c := by
  have hfresh : fresh_ref S.registry ≠ c := by
    rcases hc with hc | hc
    · exact Ne.symm (fresh_ref_ne _ _ hc)
    · have := fresh_ref_pos S.registry
      omega
  constructor
  · rw [LuaConvert_of_value env S n v h]
    unfold conversion_avoiding
    cases hv : to_host_value env v with
    | some p => rfl
    | none =>
      have hnn := to_host_value_none_ne_nil env v hv
      rw [LuaObject_New_eq S n v h hnn]
      exact ⟨fresh_ref S.registry, rfl, registry_get_cons_self _ _ _, hfresh⟩
  · intro x hx hxc
    exact ⟨LuaConvert_registry_get env S n x hx, hxc⟩

/-- A step with the cursor behind `done` and a next entry `(k, v)`: it returns
the conversion of the key `k` and moves the cursor behind `(k, v)`. -/
theorem iternext_step (env : Env) (L : lua_State) (obj : LuaObject) (tid : Nat)
    (es done suf : List (LuaValue × LuaValue)) (k v : LuaValue)
    (hat : cursor_at L obj tid es done) (hes : es = done ++ (k, v) :: suf)
    (hnd : (es.map Prod.fst).Nodup) (hnn : ∀ e ∈ es, e.1 ≠ .nil)
    (hroom : L.stack.length + 3 ≤ LUA_MINSTACK) :
    ∃ o obj1 L1, LuaObject_iternext env L obj = some (some o, obj1, L1) ∧
      conversion_avoiding env L1.registry obj1.refiter k o ∧
      registry_stable L.registry obj.refiter L1.registry obj1.refiter ∧
      obj1.ref = obj.ref ∧ L1.stack = .table tid :: L.stack ∧
      cursor_at L1 obj1 tid es (done ++ [(k, v)]) := by
  obtain ⟨hreg, htab, hfresh, hcur⟩ := hat
  have hnext := table_next_at es done ((k, v) :: suf) hes hnd hnn
  have hk : k ≠ .nil := hnn (k, v) (by rw [hes]; simp)
  have heq := LuaObject_iternext_eq env L obj tid hreg
  rw [htab] at heq
  have hr2 : ¬ LUA_MINSTACK < L.stack.length + 2 := by omega
  have hr3 : ¬ LUA_MINSTACK < L.stack.length + 3 := by omega
  simp only [hr2, if_false] at heq
  have hS : ({ L with stack := k :: .table tid :: L.stack } : lua_State).stack =
      k :: .table tid :: L.stack := rfl
  have hidx : index2value ({ L with stack := k :: .table tid :: L.stack } : lua_State) (-1) =
      some k := index2value_top _ _ _ hS
  have hcstack := LuaConvert_stack env { L with stack := k :: .table tid :: L.stack } (-1)
  have hctab := LuaConvert_tables env { L with stack := k :: .table tid :: L.stack } (-1)
  have hcreg := LuaConvert_registry_get env { L with stack := k :: .table tid :: L.stack } (-1)
    obj.ref (by simp [hreg])
  simp only at hcstack hctab hcreg
  cases hl : done.getLast? with
  | none =>
    have hd : done = [] := List.getLast?_eq_none_iff.mp hl
    have h0 : obj.refiter = 0 := hfresh hd
    have hn := hnext.1 hd
    simp only [h0, if_true, hn, List.head?_cons, hr3, if_false] at heq
    have href := luaL_ref_eq _ .iter_cursor k (.table tid :: L.stack) hcstack hk
    rw [href] at heq
    obtain ⟨hav, hstab⟩ := LuaConvert_avoiding env
      { L with stack := k :: .table tid :: L.stack } (-1) k 0 hidx (Or.inr (le_refl 0))
    simp only at hav hstab
    -- the cursor handle is new
    have hnew : registry_stable
        (LuaConvert env { L with stack := k :: .table tid :: L.stack } (-1)).2.registry 0
        ((fresh_ref (LuaConvert env { L with stack := k :: .table tid :: L.stack }
            (-1)).2.registry, k) ::
          (LuaConvert env { L with stack := k :: .table tid :: L.stack } (-1)).2.registry)
        (fresh_ref (LuaConvert env { L with stack := k :: .table tid :: L.stack }
            (-1)).2.registry) := by
      intro x hx _
      have hxf := fresh_ref_ne _ _ hx
      exact ⟨registry_get_cons_ne _ _ _ _ hxf, hxf⟩
    refine ⟨_, _, _, heq, ?_, ?_, rfl, rfl, ?_, ?_, ?_, ?_⟩
    · exact conversion_avoiding_stable env _ _ 0 _ k _ hav hnew
    · rw [h0]
      exact registry_stable_trans _ _ _ 0 0 _ hstab hnew
    · simp only
      rw [registry_get_cons_ne _ _ _ _ (fresh_ref_ne _ _ (by rw [hcreg, hreg]; simp))]
      rw [hcreg, hreg]
    · rw [← htab]
      exact table_entries_congr _ _ _ hctab
    · intro hcontra
      simp at hcontra
    · intro e he
      simp at he
      cases he
      refine ⟨?_, ?_, ?_⟩
      · have := fresh_ref_pos
          (LuaConvert env { L with stack := k :: .table tid :: L.stack } (-1)).2.registry
        simp only
        omega
      · simp only
        exact Ne.symm (fresh_ref_ne _ _ (by rw [hcreg, hreg]; simp))
      · exact registry_get_cons_self _ _ _
  | some e =>
    obtain ⟨hc0, hcne, hckey⟩ := hcur e hl
    have hn := hnext.2 e hl
    have hene : e.1 ≠ .nil := by
      have : e ∈ es := by
        rw [hes]
        exact List.mem_append_left _ (List.mem_of_getLast?_eq_some hl)
      exact hnn e this
    simp only [hc0, if_false, hckey, hn, List.head?_cons, hr3] at heq
    obtain ⟨hav, hstab⟩ := LuaConvert_avoiding env
      { L with stack := k :: .table tid :: L.stack } (-1) k obj.refiter hidx
      (Or.inl (by simp only; rw [hckey]; exact hene))
    simp only at hav hstab
    have hset : registry_stable
        (LuaConvert env { L with stack := k :: .table tid :: L.stack } (-1)).2.registry
        obj.refiter
        (lua_rawseti (LuaConvert env { L with stack := k :: .table tid :: L.stack } (-1)).2
          obj.refiter).registry obj.refiter := by
      intro x _ hxc
      simp only [lua_rawseti]
      exact ⟨registry_get_set_ne _ _ _ _ hxc, hxc⟩
    refine ⟨_, _, _, heq, ?_, ?_, rfl, ?_, ?_, ?_, ?_, ?_⟩
    · exact conversion_avoiding_stable env _ _ _ _ k _ hav hset
    · exact registry_stable_trans _ _ _ _ _ _ hstab hset
    · simp [lua_rawseti, hcstack]
    · simp only [lua_rawseti]
      rw [registry_get_set_ne _ _ _ _ (Ne.symm hcne), hcreg, hreg]
    · rw [← htab]
      exact table_entries_congr _ _ _ hctab
    · intro hcontra
      simp at hcontra
    · intro e2 he2
      simp at he2
      cases he2
      refine ⟨hc0, hcne, ?_⟩
      simp only [lua_rawseti, hcstack, List.headD_cons]
      exact registry_get_set_self _ _ _ hk

theorem luaL_ref_registry (S : lua_State) (site : RefSite) :
    (luaL_ref S site).2.registry = S.registry ∨
    ∃ x, (luaL_ref S site).2.registry = (fresh_ref S.registry, x) :: S.registry := by
  unfold luaL_ref
  split
  · exact Or.inl rfl
  · exact Or.inr ⟨_, rfl⟩

theorem conversion_of_cons_fresh (env : Env) (R : List (Int × LuaValue)) (v x : LuaValue)
    (p : PyObject) (h : conversion_of env R v p) :
    conversion_of env ((fresh_ref R, x) :: R) v p := by
  unfold conversion_of at h ⊢
  cases hv : to_host_value env v with
  | some q => simpa [hv] using h
  | none =>
    rw [hv] at h
    obtain ⟨y, hy, hr⟩ := h
    have hnn := to_host_value_none_ne_nil env v hv
    refine ⟨y, hy, ?_⟩
    rw [registry_get_cons_ne _ _ _ _ (fresh_ref_ne _ _ (by rw [hr]; exact hnn))]
    exact hr

theorem conversion_of_set_same (env : Env) (R : List (Int × LuaValue)) (c : Int)
    (v : LuaValue) (p : PyObject) (h : conversion_of env R v p) :
    conversion_of env (registry_set R c v) v p := by
  unfold conversion_of at h ⊢
  cases hv : to_host_value env v with
  | some q => simpa [hv] using h
  | none =>
    rw [hv] at h
    obtain ⟨y, hy, hr⟩ := h
    have hnn := to_host_value_none_ne_nil env v hv
    refine ⟨y, hy, ?_⟩
    by_cases hyc : y = c
    · rw [hyc]
      exact registry_get_set_self _ _ _ hnn
    · rw [registry_get_set_ne _ _ _ _ hyc]
      exact hr

/-- A step on a proxy of the table `tid` that finds the pair `(k, v)`, where the
stack has room: it returns what `LuaConvert` gives for the key `k`, which is the
conversion of `k`, and leaves the table on the stack. -/
theorem iternext_yield (env : Env) (L : lua_State) (obj : LuaObject) (tid : Nat)
    (k v : LuaValue)
    (hreg : registry_get L.registry obj.ref = .table tid)
    (hnext : table_next (table_entries L tid) (cursor_key L obj) = some (some (k, v)))
    (hroom : L.stack.length + 3 ≤ LUA_MINSTACK) :
    ∃ obj1 L1, LuaObject_iternext env L obj =
        some (some (LuaConvert env { L with stack := k :: .table tid :: L.stack } (-1)).1,
          obj1, L1) ∧
      conversion_of env L1.registry k
        (LuaConvert env { L with stack := k :: .table tid :: L.stack } (-1)).1 ∧
      L1.stack = .table tid :: L.stack := by
  have heq := LuaObject_iternext_eq env L obj tid hreg
  simp only [cursor_key] at hnext
  rw [hnext] at heq
  have hr2 : ¬ LUA_MINSTACK < L.stack.length + 2 := by omega
  have hr3 : ¬ LUA_MINSTACK < L.stack.length + 3 := by omega
  simp only [hr2, hr3, if_false] at heq
  have hS : ({ L with stack := k :: .table tid :: L.stack } : lua_State).stack =
      k :: .table tid :: L.stack := rfl
  have hconv := LuaConvert_conversion_of env
    { L with stack := k :: .table tid :: L.stack } (-1) k (index2value_top _ _ _ hS)
  have hcstack := LuaConvert_stack env { L with stack := k :: .table tid :: L.stack } (-1)
  simp only at hcstack
  by_cases h0 : obj.refiter = 0
  · simp only [h0, if_true] at heq
    refine ⟨_, _, heq, ?_, ?_⟩
    · rcases luaL_ref_registry
        (LuaConvert env { L with stack := k :: .table tid :: L.stack } (-1)).2 .iter_cursor
        with hr | ⟨x, hr⟩
      · rw [hr]
        exact hconv
      · rw [hr]
        exact conversion_of_cons_fresh env _ k x _ hconv
    · rw [luaL_ref_stack, hcstack]
      rfl
  · simp only [h0, if_false] at heq
    refine ⟨_, _, heq, ?_, ?_⟩
    · simp only [lua_rawseti, hcstack, List.headD_cons]
      exact conversion_of_set_same env _ _ k _ hconv
    · simp [lua_rawseti, hcstack]

/-- A step with the cursor behind the last entry: it returns nothing and leaves
the proxy without a cursor. -/
theorem iternext_end (env : Env) (L : lua_State) (obj : LuaObject) (tid : Nat)
    (es : List (LuaValue × LuaValue))
    (hat : cursor_at L obj tid es es)
    (hnd : (es.map Prod.fst).Nodup) (hnn : ∀ e ∈ es, e.1 ≠ .nil)
    (hroom : L.stack.length + 2 ≤ LUA_MINSTACK) :
    ∃ obj1 L1, LuaObject_iternext env L obj = some (none, obj1, L1) ∧
      obj1.ref = obj.ref ∧ obj1.refiter = 0 ∧ L1.stack = .table tid :: L.stack ∧
      cursor_at L1 obj1 tid es [] := by
  obtain ⟨hreg, htab, hfresh, hcur⟩ := hat
  have hnext := table_next_at es es [] (by simp) hnd hnn
  have heq := LuaObject_iternext_eq env L obj tid hreg
  rw [htab] at heq
  have hr2 : ¬ LUA_MINSTACK < L.stack.length + 2 := by omega
  simp only [hr2, if_false] at heq
  cases hl : es.getLast? with
  | none =>
    have hd : es = [] := List.getLast?_eq_none_iff.mp hl
    have h0 : obj.refiter = 0 := hfresh hd
    have hn := hnext.1 hd
    simp only [h0, if_true, hn, List.head?_nil] at heq
    simp only [ne_eq, not_true_eq_false, if_false] at heq
    refine ⟨_, _, heq, rfl, h0, rfl, hreg, htab, fun _ => h0, ?_⟩
    intro e he
    simp at he
  | some e =>
    obtain ⟨hc0, hcne, hckey⟩ := hcur e hl
    have hn := hnext.2 e hl
    simp only [hc0, if_false, hckey, hn, List.head?_nil] at heq
    simp only [ne_eq, hc0, not_false_eq_true, if_true] at heq
    refine ⟨_, _, heq, rfl, rfl, ?_, ?_, ?_, fun _ => rfl, ?_⟩
    · rw [luaL_unref_stack]
    · rw [luaL_unref_registry_get _ _ _ (Ne.symm hcne)]
      exact hreg
    · rw [← htab]
      exact table_entries_congr _ _ _ (luaL_unref_tables _ _)
    · intro e2 he2
      simp at he2

/-! ## Iteration: a whole traversal -/

theorem iterate_snoc (env : Env) :
    ∀ (i : Nat) (L L1 L2 : lua_State) (obj o1 o2 : LuaObject) (outs : List (Option PyObject))
      (r : Option PyObject),
      iterate env i L obj = some (outs, o1, L1) →
      LuaObject_iternext env L1 o1 = some (r, o2, L2) →
      iterate env (i + 1) L obj = some (outs ++ [r], o2, L2) := by
  intro i
  induction i with
  | zero =>
    intro L L1 L2 obj o1 o2 outs r h hstep
    simp only [iterate, Option.some.injEq, Prod.mk.injEq] at h
    obtain ⟨ho, hobj, hL⟩ := h
    subst ho hobj hL
    simp [iterate, hstep]
  | succ i ih =>
    intro L L1 L2 obj o1 o2 outs r h hstep
    rw [iterate] at h
    cases h1 : LuaObject_iternext env L obj with
    | none => simp [h1] at h
    | some x =>
      obtain ⟨r1, obj1, La⟩ := x
      simp only [h1] at h
      cases h2 : iterate env i La obj1 with
      | none => simp [h2] at h
      | some y =>
        obtain ⟨rs, objb, Lb⟩ := y
        simp only [h2, Option.some.injEq, Prod.mk.injEq] at h
        obtain ⟨ho, hobj, hL⟩ := h
        subst ho hobj hL
        have := ih La Lb L2 obj1 objb o2 rs r h2 hstep
        rw [iterate]
        simp [h1, this]

/-- From the cursor behind `done`, as many steps as the entries `mid` that
follow return the conversions of their keys, in order, and leave the cursor
behind the last of them; each step leaves one more value on the stack. -/
theorem iterate_through (env : Env) (tid : Nat) (es : List (LuaValue × LuaValue))
    (hnd : (es.map Prod.fst).Nodup) (hnn : ∀ e ∈ es, e.1 ≠ .nil) :
    ∀ (mid done rest : List (LuaValue × LuaValue)) (L : lua_State) (obj : LuaObject),
      es = done ++ (mid ++ rest) → cursor_at L obj tid es done →
      L.stack.length + mid.length + 2 ≤ LUA_MINSTACK →
      ∃ outs obj1 L1, iterate env mid.length L obj = some (outs.map some, obj1, L1) ∧
        List.Forall₂ (fun e p => conversion_avoiding env L1.registry obj1.refiter e.1 p)
          mid outs ∧
        registry_stable L.registry obj.refiter L1.registry obj1.refiter ∧
        obj1.ref = obj.ref ∧ L1.stack.length = L.stack.length + mid.length ∧
        cursor_at L1 obj1 tid es (done ++ mid) := by
  intro mid
  induction mid with
  | nil =>
    intro done rest L obj _ hat _
    rw [List.append_nil]
    exact ⟨[], obj, L, rfl, List.Forall₂.nil, fun h _ hc => ⟨rfl, hc⟩, rfl, rfl, hat⟩
  | cons kv mid ih =>
    intro done rest L obj hes hat hroom
    obtain ⟨k, v⟩ := kv
    simp only [List.length_cons] at hroom
    obtain ⟨o, obj1, L1, hstep, hconv, hstab, href, hstack, hat1⟩ :=
      iternext_step env L obj tid es done (mid ++ rest) k v hat (by simpa using hes) hnd hnn
        (by omega)
    have hlen1 : L1.stack.length = L.stack.length + 1 := by rw [hstack]; rfl
    obtain ⟨outs, obj2, L2, hrest, hall, hstab2, href2, hlen2, hat2⟩ :=
      ih (done ++ [(k, v)]) rest L1 obj1 (by simp [hes]) hat1 (by omega)
    refine ⟨o :: outs, obj2, L2, ?_, ?_, registry_stable_trans _ _ _ _ _ _ hstab hstab2,
      href2.trans href, ?_, ?_⟩
    · simp [iterate, hstep, hrest]
    · exact List.Forall₂.cons
        (conversion_avoiding_stable env _ _ _ _ k o hconv hstab2) hall
    · simp only [List.length_cons]
      omega
    · simpa using hat2

/-- The key `lua_next` is given when the cursor stands behind `done`, and the
entry it moves to. -/
theorem cursor_at_next (L : lua_State) (obj : LuaObject) (tid : Nat)
    (es done suf : List (LuaValue × LuaValue)) (hat : cursor_at L obj tid es done)
    (hes : es = done ++ suf) (hnd : (es.map Prod.fst).Nodup) (hnn : ∀ e ∈ es, e.1 ≠ .nil) :
    table_next (table_entries L tid) (cursor_key L obj) = some suf.head? := by
  obtain ⟨_, htab, hfresh, hcur⟩ := hat
  have hnext := table_next_at es done suf hes hnd hnn
  rw [htab]
  cases hl : done.getLast? with
  | none =>
    have hd : done = [] := List.getLast?_eq_none_iff.mp hl
    simp only [cursor_key, hfresh hd, if_true]
    exact hnext.1 hd
  | some e =>
    obtain ⟨hc0, _, hckey⟩ := hcur e hl
    simp only [cursor_key, hc0, if_false, hckey]
    exact hnext.2 e hl

/-- C2 (amended). On a proxy that wraps a table, an iteration step that finds a
next (key, value) pair and has room on the stack for three values drops the
value and returns the conversion of the KEY, that is what `LuaConvert` gives for
the key; it leaves the table on the stack, and without that room it is
undefined. So iterating a proxy without a cursor, on a stack that has room for
two values and one more for each entry, yields the conversions of the table's
keys, once each, in the enumeration order: the step that follows the steps for
the entries `done` returns what `LuaConvert` gives for the key of the next
entry, in the state those steps left; all the values returned are the
conversions of the keys in the registry the traversal leaves; and the step
after them returns nothing. -/
theorem iteration_yields_keys (env : Env) (L : lua_State) (obj : LuaObject) (tid : Nat)
    (hreg : registry_get L.registry obj.ref = .table tid) :
    (∀ k v, table_next (table_entries L tid) (cursor_key L obj) = some (some (k, v)) →
      (L.stack.length + 3 ≤ LUA_MINSTACK →
        ∃ obj1 L1, LuaObject_iternext env L obj =
            some (some (LuaConvert env { L with stack := k :: .table tid :: L.stack } (-1)).1,
              obj1, L1) ∧
          conversion_of env L1.registry k
            (LuaConvert env { L with stack := k :: .table tid :: L.stack } (-1)).1 ∧
          L1.stack = .table tid :: L.stack) ∧
      (LUA_MINSTACK < L.stack.length + 3 → LuaObject_iternext env L obj = none)) ∧
    (obj.refiter = 0 → ((table_entries L tid).map Prod.fst).Nodup →
      (∀ e ∈ table_entries L tid, e.1 ≠ .nil) →
      L.stack.length + (table_entries L tid).length + 2 ≤ LUA_MINSTACK →
      (∀ done k v rest, table_entries L tid = done ++ (k, v) :: rest →
        ∃ outs obj1 L1 obj2 L2,
          iterate env done.length L obj = some (outs, obj1, L1) ∧
          iterate env (done.length + 1) L obj =
            some (outs ++
              [some (LuaConvert env { L1 with stack := k :: .table tid :: L1.stack } (-1)).1],
              obj2, L2)) ∧
      ∃ outs obj1 L1,
        iterate env (table_entries L tid).length L obj = some (outs.map some, obj1, L1) ∧
        List.Forall₂ (fun e p => conversion_of env L1.registry e.1 p)
          (table_entries L tid) outs ∧
        ∃ obj2 L2, LuaObject_iternext env L1 obj1 = some (none, obj2, L2)) := by
  constructor
  · intro k v hnext
    refine ⟨iternext_yield env L obj tid k v hreg hnext, ?_⟩
    intro hroom
    have heq := LuaObject_iternext_eq env L obj tid hreg
    simp only [cursor_key] at hnext
    rw [hnext] at heq
    rw [heq]
    simp only [hroom, if_true]
    split <;> rfl
  · intro h0 hnd hnn hroom
    have hat : cursor_at L obj tid (table_entries L tid) [] :=
      ⟨hreg, rfl, fun _ => h0, by intro e he; simp at he⟩
    constructor
    · intro done k v rest hes
      have hlen : (table_entries L tid).length = done.length + (rest.length + 1) := by
        rw [hes]
        simp
      obtain ⟨outs, obj1, L1, hit, _, _, _, hlen1, hat1⟩ :=
        iterate_through env tid (table_entries L tid) hnd hnn done [] ((k, v) :: rest) L obj
          (by simpa using hes) hat (by omega)
      simp only [List.nil_append] at hat1
      have hnext := cursor_at_next L1 obj1 tid _ done ((k, v) :: rest) hat1 hes hnd hnn
      obtain ⟨obj2, L2, hstep, _, _⟩ :=
        iternext_yield env L1 obj1 tid k v hat1.1 hnext (by omega)
      exact ⟨_, obj1, L1, obj2, L2, hit, iterate_snoc env _ _ _ _ _ _ _ _ _ hit hstep⟩
    · obtain ⟨outs, obj1, L1, hit, hall, _, _, hlen, hat1⟩ :=
        iterate_through env tid (table_entries L tid) hnd hnn (table_entries L tid) [] [] L obj
          (by simp) hat hroom
      simp only [List.nil_append] at hat1
      obtain ⟨obj2, L2, hend, _⟩ := iternext_end env L1 obj1 tid _ hat1 hnd hnn (by omega)
      refine ⟨outs, obj1, L1, hit, ?_, obj2, L2, hend⟩
      exact List.Forall₂.imp (fun e p h => conversion_avoiding_of env _ _ _ _ h) hall

/-- The amended C2 at the table `"a" ↦ true, "b" ↦ false` of the demo state. -/
theorem iteration_yields_keys_witness :
    (∃ obj1 L1, LuaObject_iternext demo_env demo_state ⟨1, 0⟩ =
        some (some (LuaConvert demo_env
          { demo_state with stack := .string [97] :: .table 7 :: demo_state.stack } (-1)).1,
          obj1, L1) ∧
      conversion_of demo_env L1.registry (.string [97])
        (LuaConvert demo_env
          { demo_state with stack := .string [97] :: .table 7 :: demo_state.stack } (-1)).1 ∧
      L1.stack = .table 7 :: demo_state.stack) ∧
    (∃ outs obj1 L1 obj2 L2,
        iterate demo_env 1 demo_state ⟨1, 0⟩ = some (outs, obj1, L1) ∧
        iterate demo_env 2 demo_state ⟨1, 0⟩ =
          some (outs ++
            [some (LuaConvert demo_env
              { L1 with stack := .string [98] :: .table 7 :: L1.stack } (-1)).1],
            obj2, L2)) ∧
    (∃ outs obj1 L1,
        iterate demo_env (table_entries demo_state 7).length demo_state ⟨1, 0⟩ =
          some (outs.map some, obj1, L1) ∧
        List.Forall₂ (fun e p => conversion_of demo_env L1.registry e.1 p)
          (table_entries demo_state 7) outs ∧
        ∃ obj2 L2, LuaObject_iternext demo_env L1 obj1 = some (none, obj2, L2)) :=
  ⟨((iteration_yields_keys demo_env demo_state ⟨1, 0⟩ 7 rfl).1 (.string [97]) (.boolean true)
      rfl).1 (by decide),
   ((iteration_yields_keys demo_env demo_state ⟨1, 0⟩ 7 rfl).2 rfl (by decide) (by decide)
      (by decide)).1 [(.string [97], .boolean true)] (.string [98]) (.boolean false) [] rfl,
   ((iteration_yields_keys demo_env demo_state ⟨1, 0⟩ 7 rfl).2 rfl (by decide) (by decide)
      (by decide)).2⟩

/-- C2 as stated fails: on the table `"a" ↦ true, "b" ↦ false` the first step
finds the pair `("a", true)` and returns the text `"a"`, which is not the
conversion of the value `true`; two steps return `"a"` and `"b"`. -/
theorem iteration_yields_values_counterexample :
    table_next (table_entries demo_state 7) (cursor_key demo_state ⟨1, 0⟩) =
      some (some (.string [97], .boolean true)) ∧
    (LuaObject_iternext demo_env demo_state ⟨1, 0⟩).map (fun r => r.1) =
      some (some (.Unicode [97])) ∧
    (∀ R, ¬ conversion_of demo_env R (.boolean true) (.Unicode [97])) ∧
    (iterate demo_env 2 demo_state ⟨1, 0⟩).map (fun r => r.1) =
      some [some (.Unicode [97]), some (.Unicode [98])] := by
  refine ⟨rfl, rfl, ?_, rfl⟩
  intro R h
  simp [conversion_of, to_host_value] at h

/-! ## Iteration: after the last entry -/

theorem registry_get_filter_self (r : List (Int × LuaValue)) (n : Int) :
    registry_get (r.filter (fun e => e.1 ≠ n)) n = .nil := by
  have h : (r.filter (fun e => e.1 ≠ n)).lookup n = none := by
    induction r with
    | nil => rfl
    | cons a r ih =>
      obtain ⟨a1, a2⟩ := a
      simp only [ne_eq, decide_not] at ih
      by_cases ha : a1 = n
      · simp [List.filter_cons, ha, ih]
      · have hb : (n == a1) = false := by simpa using fun h => ha h.symm
        simp [List.filter_cons, ha, List.lookup_cons, hb, ih]
  simp only [ne_eq, decide_not] at h
  simp [registry_get, h]

/-- C3 (amended). When an iteration step on a table proxy has reported "no more
entries", the cursor handle, when there was one, has been released: the release
is the one event of the step and the handle refers to nothing. The proxy is
left without a cursor, exactly as a new proxy, and the table is left on the
stack. So, where the stack has room, the next step returns nothing again only
when the table has no entry, and otherwise starts over and returns the
conversion of the first key. No step raises an error. -/
theorem exhausted_iterator_restarts (env : Env) (L L1 : lua_State) (obj obj1 : LuaObject)
    (tid : Nat)
    (hreg : registry_get L.registry obj.ref = .table tid)
    (hcur : obj.refiter ≠ 0 → 0 < obj.refiter ∧ obj.refiter ≠ obj.ref)
    (hend : LuaObject_iternext env L obj = some (none, obj1, L1)) :
    obj1.refiter = 0 ∧ obj1.ref = obj.ref ∧
    (obj.refiter ≠ 0 →
      L1.events = L.events ++ [.unref obj.refiter] ∧
      registry_get L1.registry obj.refiter = .nil) ∧
    (obj.refiter = 0 → L1.events = L.events ∧ L1.registry = L.registry) ∧
    L1.stack = .table tid :: L.stack ∧
    (table_entries L tid = [] → L1.stack.length + 2 ≤ LUA_MINSTACK →
      ∃ L2, LuaObject_iternext env L1 obj1 = some (none, obj1, L2)) ∧
    (∀ k v rest, table_entries L tid = (k, v) :: rest →
      L1.stack.length + 3 ≤ LUA_MINSTACK →
      ∃ obj2 L2, LuaObject_iternext env L1 obj1 =
          some (some (LuaConvert env { L1 with stack := k :: .table tid :: L1.stack } (-1)).1,
            obj2, L2) ∧
        conversion_of env L2.registry k
          (LuaConvert env { L1 with stack := k :: .table tid :: L1.stack } (-1)).1) := by
  have heq := LuaObject_iternext_eq env L obj tid hreg
  rw [hend] at heq
  -- the state the step leaves
  have hstate : obj1.refiter = 0 ∧ obj1.ref = obj.ref ∧
      registry_get L1.registry obj1.ref = .table tid ∧
      table_entries L1 tid = table_entries L tid ∧
      (obj.refiter ≠ 0 →
        L1.events = L.events ++ [.unref obj.refiter] ∧
        registry_get L1.registry obj.refiter = .nil) ∧
      (obj.refiter = 0 → L1.events = L.events ∧ L1.registry = L.registry) ∧
      L1.stack = .table tid :: L.stack := by
    by_cases hroom : LUA_MINSTACK < L.stack.length + 2
    · simp [hroom] at heq
    · simp only [hroom, if_false] at heq
      cases hn : table_next (table_entries L tid)
          (if obj.refiter = 0 then .nil else registry_get L.registry obj.refiter) with
      | none => simp [hn] at heq
      | some o =>
        cases o with
        | some kv =>
          rw [hn] at heq
          by_cases hroom3 : LUA_MINSTACK < L.stack.length + 3
          · simp [hroom3] at heq
          · by_cases h0 : obj.refiter = 0
            · simp [h0, hroom3] at heq
            · simp [h0, hroom3] at heq
        | none =>
          rw [hn] at heq
          by_cases h0 : obj.refiter = 0
          · simp only [h0, ne_eq, not_true_eq_false, if_false, Option.some.injEq,
              Prod.mk.injEq, true_and] at heq
            obtain ⟨ho, hL⟩ := heq
            subst ho
            subst hL
            exact ⟨h0, rfl, hreg, rfl, fun hc => absurd h0 hc, fun _ => ⟨rfl, rfl⟩, rfl⟩
          · simp only [ne_eq, h0, not_false_eq_true, if_true, Option.some.injEq,
              Prod.mk.injEq, true_and] at heq
            obtain ⟨ho, hL⟩ := heq
            subst ho
            subst hL
            obtain ⟨hpos, hne⟩ := hcur h0
            have hge : 0 ≤ obj.refiter := by omega
            refine ⟨rfl, rfl, ?_, ?_, ?_, fun hc => absurd hc h0, ?_⟩
            · rw [luaL_unref_registry_get _ _ _ (Ne.symm hne)]
              exact hreg
            · exact table_entries_congr _ _ _ (luaL_unref_tables _ _)
            · intro _
              simp only [luaL_unref, hge, if_true, true_and]
              exact registry_get_filter_self _ _
            · exact luaL_unref_stack _ _
  obtain ⟨h0, href, hreg1, htab1, hrel, hkeep, hstack⟩ := hstate
  have hck : cursor_key L1 obj1 = .nil := by simp [cursor_key, h0]
  refine ⟨h0, href, hrel, hkeep, hstack, ?_, ?_⟩
  · intro hes hroom
    have heq1 := LuaObject_iternext_eq env L1 obj1 tid hreg1
    have hr2 : ¬ LUA_MINSTACK < L1.stack.length + 2 := by omega
    simp only [h0, if_true, htab1, hes, table_next, ne_eq, not_true_eq_false, if_false,
      List.head?_nil, hr2] at heq1
    exact ⟨_, heq1⟩
  · intro k v rest hes hroom
    obtain ⟨obj2, L2, hstep, hconv, _⟩ := iternext_yield env L1 obj1 tid k v hreg1
      (by rw [hck, htab1, hes]; rfl) hroom
    exact ⟨obj2, L2, hstep, hconv⟩

/-- The amended C3 at the demo table, with the cursor behind its last entry. -/
theorem exhausted_iterator_restarts_witness :
    LuaObject_iternext demo_env demo_state_last ⟨1, 4⟩ =
      some (none, ⟨1, 0⟩, luaL_unref { demo_state_last with
        stack := .table 7 :: demo_state_last.stack } 4) ∧
    (luaL_unref { demo_state_last with stack := .table 7 :: demo_state_last.stack } 4).events =
      demo_state_last.events ++ [.unref 4] ∧
    registry_get (luaL_unref { demo_state_last with
      stack := .table 7 :: demo_state_last.stack } 4).registry 4 = .nil ∧
    ∃ obj2 L2, LuaObject_iternext demo_env
        (luaL_unref { demo_state_last with stack := .table 7 :: demo_state_last.stack } 4)
        ⟨1, 0⟩ = some (some (LuaConvert demo_env
          { luaL_unref { demo_state_last with
              stack := .table 7 :: demo_state_last.stack } 4 with
            stack := .string [97] :: .table 7 ::
              (luaL_unref { demo_state_last with
                stack := .table 7 :: demo_state_last.stack } 4).stack } (-1)).1, obj2, L2) ∧
      conversion_of demo_env L2.registry (.string [97])
        (LuaConvert demo_env
          { luaL_unref { demo_state_last with
              stack := .table 7 :: demo_state_last.stack } 4 with
            stack := .string [97] :: .table 7 ::
              (luaL_unref { demo_state_last with
                stack := .table 7 :: demo_state_last.stack } 4).stack } (-1)).1 :=
  ⟨rfl,
   ((exhausted_iterator_restarts demo_env demo_state_last
      (luaL_unref { demo_state_last with stack := .table 7 :: demo_state_last.stack } 4)
      ⟨1, 4⟩ ⟨1, 0⟩ 7 rfl (by decide) rfl).2.2.1 (by decide)).1,
   ((exhausted_iterator_restarts demo_env demo_state_last
      (luaL_unref { demo_state_last with stack := .table 7 :: demo_state_last.stack } 4)
      ⟨1, 4⟩ ⟨1, 0⟩ 7 rfl (by decide) rfl).2.2.1 (by decide)).2,
   (exhausted_iterator_restarts demo_env demo_state_last
      (luaL_unref { demo_state_last with stack := .table 7 :: demo_state_last.stack } 4)
      ⟨1, 4⟩ ⟨1, 0⟩ 7 rfl (by decide) rfl).2.2.2.2.2.2 (.string [97]) (.boolean true) _ rfl
      (by decide)⟩

/-- C3 as stated fails: on the two-entry demo table the third step reports "no
more entries" and the fourth step returns the first key again. -/
theorem exhausted_iterator_counterexample :
    (iterate demo_env 4 demo_state ⟨1, 0⟩).map (fun r => r.1) =
      some [some (.Unicode [97]), some (.Unicode [98]), none, some (.Unicode [97])] := by
  rfl

/-! ## The stack after an operation -/

/-- C4 fails on the code. Started with an empty stack: a call whose callable
raises returns with the error value left on the stack; an iteration step returns
with the table left on the stack; a comparison of two proxies returns with its
result left on the stack; `Lua_run` on a chunk that does not compile returns
with the error message left on the stack. -/
theorem stack_not_restored :
    demo_state.stack = [] ∧
    (LuaObject_call demo_env demo_state ⟨3, 0⟩ (.Tuple [])).map (fun r => r.2.stack) =
      some [.string [98, 111, 111, 109]] ∧
    (LuaObject_iternext demo_env demo_state ⟨1, 0⟩).map (fun r => r.2.2.stack) =
      some [.table 7] ∧
    (LuaObject_richcmp demo_env demo_state ⟨1, 0⟩ (.Lua ⟨1, 0⟩) Py_EQ).map
      (fun r => r.2.stack) = some [.boolean true] ∧
    (Lua_run demo_env_reject demo_state (.Tuple [.Long 0, .Unicode [120]]) false).map
      (fun r => r.2.stack) = some [.string [98, 97, 100]] := by
  refine ⟨rfl, rfl, rfl, ?_, rfl⟩
  decide!

/-! ## Attribute write, then read -/

/-- C6 fails on the code for `ne`. When the right operand is not a proxy,
`LuaObject_richcmp` returns `Py_False` for every operator `op` and touches
nothing: no error is raised and `eq`, `lt`, `le`, `gt`, `ge` give false as
specified, but `ne` gives false too, where the specification, and an unequal
pair, require true. -/
theorem richcmp_non_proxy_is_false (env : Env) (L : lua_State) (lhs : LuaObject) (op : Int) :
    LuaObject_richcmp env L lhs .None op = some (⟨some (.Bool false), none⟩, L) ∧
    (∀ b, LuaObject_richcmp env L lhs (.Bool b) op = some (⟨some (.Bool false), none⟩, L)) ∧
    (∀ i, LuaObject_richcmp env L lhs (.Long i) op = some (⟨some (.Bool false), none⟩, L)) ∧
    (∀ d, LuaObject_richcmp env L lhs (.Float d) op = some (⟨some (.Bool false), none⟩, L)) ∧
    (∀ s, LuaObject_richcmp env L lhs (.Unicode s) op = some (⟨some (.Bool false), none⟩, L)) ∧
    (∀ s, LuaObject_richcmp env L lhs (.Bytes s) op = some (⟨some (.Bool false), none⟩, L)) ∧
    (∀ xs, LuaObject_richcmp env L lhs (.Tuple xs) op = some (⟨some (.Bool false), none⟩, L)) ∧
    (∀ id, LuaObject_richcmp env L lhs (.Other id) op = some (⟨some (.Bool false), none⟩, L)) ∧
    LuaObject_richcmp env L lhs (.Long 5) Py_NE = some (⟨some (.Bool false), none⟩, L) :=
  ⟨rfl, fun _ => rfl, fun _ => rfl, fun _ => rfl, fun _ => rfl, fun _ => rfl, fun _ => rfl,
    fun _ => rfl, rfl⟩

/-! ## The lifetime of a proxy -/

theorem replay_append (evs : List RegEvent) (e : RegEvent) :
    replay (evs ++ [e]) = replay_event (replay evs) e := by
  simp [replay, List.foldl_append]

theorem own_events_append (evs more : List RegEvent) (h : evs ≠ []) :
    own_events (evs ++ more) =
      own_events evs ++ more.filter (fun x => !is_proxy_creation x) := by
  cases evs with
  | nil => exact absurd rfl h
  | cons e rest => simp [own_events]

theorem count_unref_own_events (evs : List RegEvent) (h : Int) :
    (own_events evs).count (.unref h) = evs.count (.unref h) := by
  cases evs with
  | nil => rfl
  | cons e rest =>
    simp only [own_events, List.count_cons]
    congr 1
    induction rest with
    | nil => rfl
    | cons a rest ih =>
      by_cases ha : is_proxy_creation a
      · have hne : (a == RegEvent.unref h) = false := by
          cases a with
          | ref x s => simp
          | unref x => simp [is_proxy_creation] at ha
        simp [List.filter_cons, ha, List.count_cons, hne, ih]
      · simp [List.filter_cons, ha, List.count_cons, ih]

theorem next_after_some (es : List (LuaValue × LuaValue)) (k : LuaValue)
    (h : ∃ e ∈ es, k = e.1) : ∃ r, next_after es k = some r := by
  induction es with
  | nil => simp at h
  | cons a es ih =>
    by_cases ha : a.1 = k
    · exact ⟨es.head?, by simp [next_after, ha]⟩
    · obtain ⟨e, he, hk⟩ := h
      simp only [List.mem_cons] at he
      rcases he with he | he
      · subst he; exact absurd hk.symm ha
      · obtain ⟨r, hr⟩ := ih ⟨e, he, hk⟩
        exact ⟨r, by simp [next_after, ha, hr]⟩

theorem next_after_mem (es : List (LuaValue × LuaValue)) (k : LuaValue)
    (e : LuaValue × LuaValue) (h : next_after es k = some (some e)) : e ∈ es := by
  induction es with
  | nil => simp [next_after] at h
  | cons a es ih =>
    by_cases ha : a.1 = k
    · simp only [next_after, ha, if_true, Option.some.injEq] at h
      exact List.mem_cons_of_mem _ (List.mem_of_mem_head? h)
    · simp only [next_after, ha, if_false] at h
      exact List.mem_cons_of_mem _ (ih h)

theorem table_next_mem (es : List (LuaValue × LuaValue)) (k : LuaValue)
    (e : LuaValue × LuaValue) (h : table_next es k = some (some e)) : e ∈ es := by
  unfold table_next at h
  split at h
  · simp only [Option.some.injEq] at h
    exact List.mem_of_mem_head? h
  · exact next_after_mem es k e h

/-- A new registry entry under a fresh key keeps the invariant. -/
theorem registry_inv_extend (v : LuaValue) (es : List (LuaValue × LuaValue))
    (R : List (Int × LuaValue)) (ref refiter : Int) (own : List RegEvent) (k : LuaValue)
    (h : registry_inv v es R ref refiter own) :
    registry_inv v es ((fresh_ref R, k) :: R) ref refiter own := by
  obtain ⟨h1, h2, h3, h4, h5, live, h6, h7, h8, h9, h10, h11⟩ := h
  have hfresh : ∀ x ∈ live, x ≠ fresh_ref R := fun x hx => fresh_ref_ne R x (h10 x hx)
  refine ⟨?_, h2, h3, ?_, h5, live, h6, h7, h8, h9, ?_, h11⟩
  · rw [registry_get_cons_ne _ _ _ _ (hfresh ref h8)]
    exact h1
  · intro hit
    obtain ⟨hne, e, he, hk⟩ := h4 hit
    refine ⟨hne, e, he, ?_⟩
    rw [registry_get_cons_ne _ _ _ _ (hfresh refiter (h9 hit))]
    exact hk
  · intro x hx
    rw [registry_get_cons_ne _ _ _ _ (hfresh x hx)]
    exact h10 x hx

/-- The first step of a traversal keeps the invariant: the cursor handle is new. -/
theorem registry_inv_cursor_new (v : LuaValue) (es : List (LuaValue × LuaValue))
    (R : List (Int × LuaValue)) (ref : Int)
    (own : List RegEvent) (e : LuaValue × LuaValue) (he : e ∈ es) (hk : e.1 ≠ .nil)
    (h : registry_inv v es R ref 0 own) :
    registry_inv v es ((fresh_ref R, e.1) :: R) ref (fresh_ref R)
      (own ++ [.ref (fresh_ref R) .iter_cursor]) := by
  obtain ⟨h1, h2, _, _, h5, live, h6, h7, h8, _, h10, h11⟩ := h
  have hfresh : ∀ x ∈ live, x ≠ fresh_ref R := fun x hx => fresh_ref_ne R x (h10 x hx)
  have hnotin : fresh_ref R ∉ live := fun hin => hfresh _ hin rfl
  have hpos := fresh_ref_pos R
  have hne0 : fresh_ref R ≠ 0 := by omega
  refine ⟨?_, h2, by omega, ?_, ?_, fresh_ref R :: live, ?_, ?_, ?_, ?_, ?_, ?_⟩
  · rw [registry_get_cons_ne _ _ _ _ (hfresh ref h8)]
    exact h1
  · intro _
    exact ⟨Ne.symm (hfresh ref h8), e, he, registry_get_cons_self _ _ _⟩
  · simp [List.count_append, h5]
  · rw [replay_append, h6]
    simp [replay_event, hnotin]
  · exact List.nodup_cons.mpr ⟨hnotin, h7⟩
  · exact List.mem_cons_of_mem _ h8
  · intro _
    exact List.mem_cons_self _ _
  · intro x hx
    simp only [List.mem_cons] at hx
    rcases hx with hx | hx
    · subst hx
      rw [registry_get_cons_self]
      exact hk
    · rw [registry_get_cons_ne _ _ _ _ (hfresh x hx)]
      exact h10 x hx
  · intro x hx
    simp only [List.mem_cons] at hx
    rcases hx with hx | hx
    · exact Or.inr ⟨hne0, hx⟩
    · rcases h11 x hx with a | a
      · exact Or.inl a
      · exact absurd rfl a.1

/-- A later step keeps the invariant: the cursor handle is kept and refers to
the new key. -/
theorem registry_inv_cursor_set (v : LuaValue) (es : List (LuaValue × LuaValue))
    (R : List (Int × LuaValue)) (ref refiter : Int)
    (own : List RegEvent) (e : LuaValue × LuaValue) (he : e ∈ es) (hk : e.1 ≠ .nil)
    (hit : refiter ≠ 0) (h : registry_inv v es R ref refiter own) :
    registry_inv v es (registry_set R refiter e.1) ref refiter own := by
  obtain ⟨h1, h2, h3, h4, h5, live, h6, h7, h8, h9, h10, h11⟩ := h
  obtain ⟨hne, _⟩ := h4 hit
  refine ⟨?_, h2, h3, ?_, h5, live, h6, h7, h8, h9, ?_, h11⟩
  · rw [registry_get_set_ne _ _ _ _ (Ne.symm hne)]
    exact h1
  · intro _
    exact ⟨hne, e, he, registry_get_set_self _ _ _ hk⟩
  · intro x hx
    by_cases hxc : x = refiter
    · subst hxc
      rw [registry_get_set_self _ _ _ hk]
      exact hk
    · rw [registry_get_set_ne _ _ _ _ hxc]
      exact h10 x hx

/-- The step that ends a traversal keeps the invariant: the cursor handle is
released, once, while it is live. -/
theorem registry_inv_cursor_drop (v : LuaValue) (es : List (LuaValue × LuaValue))
    (R : List (Int × LuaValue)) (ref refiter : Int)
    (own : List RegEvent) (hit : refiter ≠ 0)
    (h : registry_inv v es R ref refiter own) :
    registry_inv v es (R.filter (fun e => e.1 ≠ refiter)) ref 0
      (own ++ [.unref refiter]) := by
  obtain ⟨h1, h2, h3, h4, h5, live, h6, h7, h8, h9, h10, h11⟩ := h
  obtain ⟨hne, _⟩ := h4 hit
  refine ⟨?_, h2, le_refl 0, ?_, ?_, live.erase refiter, ?_, ?_, ?_, ?_, ?_, ?_⟩
  · rw [registry_get_filter_ne _ _ _ (Ne.symm hne)]
    exact h1
  · intro hcontra
    exact absurd rfl hcontra
  · have : RegEvent.unref refiter ≠ RegEvent.unref ref := by
      intro hh
      exact hne (RegEvent.unref.inj hh)
    rw [List.count_append, h5, List.count_singleton]
    simp [this]
  · rw [replay_append, h6]
    simp [replay_event, h9 hit]
  · exact h7.erase _
  · exact (List.Nodup.mem_erase_iff h7).mpr ⟨Ne.symm hne, h8⟩
  · intro hcontra
    exact absurd rfl hcontra
  · intro x hx
    obtain ⟨hxne, hxl⟩ := (List.Nodup.mem_erase_iff h7).mp hx
    rw [registry_get_filter_ne _ _ _ hxne]
    exact h10 x hxl
  · intro x hx
    obtain ⟨hxne, hxl⟩ := (List.Nodup.mem_erase_iff h7).mp hx
    rcases h11 x hxl with a | a
    · exact Or.inl a
    · exact absurd a.2 hxne

theorem lifetime_inv_stack (v : LuaValue) (es : List (LuaValue × LuaValue))
    (base : List RegEvent) (C : Int → Prop) (L : lua_State) (obj : LuaObject)
    (evs : List RegEvent) (s : List LuaValue) (h : lifetime_inv v es base C L obj evs) :
    lifetime_inv v es base C { L with stack := s } obj evs := h

theorem lifetime_inv_mono (v : LuaValue) (es : List (LuaValue × LuaValue))
    (base : List RegEvent) (P Q : Int → Prop) (L : lua_State) (obj : LuaObject)
    (evs : List RegEvent) (hC : ∀ h, P h → Q h) (h : lifetime_inv v es base P L obj evs) :
    lifetime_inv v es base Q L obj evs :=
  ⟨h.1, h.2.1, h.2.2.1, h.2.2.2.1, fun x hx => hC x (h.2.2.2.2 x hx)⟩

/-- A conversion keeps the invariant of the proxy being iterated: the handle it
may create is the value handle of the proxy it returns. -/
theorem convert_keeps_inv (env : Env) (v : LuaValue) (es : List (LuaValue × LuaValue))
    (base : List RegEvent) (C : Int → Prop) (S : lua_State) (obj : LuaObject)
    (evs : List RegEvent) (n : Int) (h : lifetime_inv v es base C S obj evs) :
    ∃ evs1, lifetime_inv v es base
      (fun x => C x ∨ (LuaConvert env S n).1 = .Lua ⟨x, 0⟩)
      (LuaConvert env S n).2 obj (evs ++ evs1) := by
  rcases LuaConvert_effect env S n with hsame | ⟨k, _, hk, hnew⟩
  · refine ⟨[], ?_⟩
    rw [hsame, List.append_nil]
    exact lifetime_inv_mono v es base _ _ S obj evs (fun x hx => Or.inl hx) h
  · refine ⟨[.ref (fresh_ref S.registry) .proxy_value], ?_⟩
    rw [hnew]
    obtain ⟨htab, hev, hne, hreg, hch⟩ := h
    refine ⟨htab, ?_, by simp [hne], ?_, ?_⟩
    · simp [hev]
    · have hown : own_events (evs ++ [.ref (fresh_ref S.registry) .proxy_value]) =
          own_events evs := by
        rw [own_events_append _ _ hne]
        simp [is_proxy_creation]
      rw [hown]
      exact registry_inv_extend v es S.registry obj.ref obj.refiter _ k hreg
    · intro x hx
      rw [List.tail_append_of_ne_nil hne] at hx
      simp only [List.mem_append, List.mem_singleton, RegEvent.ref.injEq, and_true] at hx
      rcases hx with hx | hx
      · exact Or.inl (hch x hx)
      · right
        rw [hx]

/-- Saving the first key as the cursor keeps the invariant. -/
theorem ref_keeps_inv (v : LuaValue) (es : List (LuaValue × LuaValue))
    (base : List RegEvent) (C : Int → Prop) (S : lua_State) (obj : LuaObject)
    (evs : List RegEvent) (e : LuaValue × LuaValue) (rest : List LuaValue)
    (hS : S.stack = e.1 :: rest) (he : e ∈ es) (hk : e.1 ≠ .nil) (h0 : obj.refiter = 0)
    (h : lifetime_inv v es base C S obj evs) :
    ∃ evs1, lifetime_inv v es base C (luaL_ref S .iter_cursor).2
      { obj with refiter := (luaL_ref S .iter_cursor).1 } (evs ++ evs1) := by
  rw [luaL_ref_eq S .iter_cursor e.1 rest hS hk]
  obtain ⟨htab, hev, hne, hreg, hch⟩ := h
  rw [h0] at hreg
  refine ⟨[.ref (fresh_ref S.registry) .iter_cursor], htab, ?_, by simp [hne], ?_, ?_⟩
  · simp [hev]
  · have hown : own_events (evs ++ [.ref (fresh_ref S.registry) .iter_cursor]) =
        own_events evs ++ [.ref (fresh_ref S.registry) .iter_cursor] := by
      rw [own_events_append _ _ hne]
      simp [is_proxy_creation]
    rw [hown]
    exact registry_inv_cursor_new v es S.registry obj.ref _ e he hk hreg
  · intro x hx
    rw [List.tail_append_of_ne_nil hne] at hx
    simp only [List.mem_append, List.mem_singleton, RegEvent.ref.injEq] at hx
    rcases hx with hx | hx
    · exact hch x hx
    · exact absurd hx.2 (by decide)

/-- Overwriting the cursor with the next key keeps the invariant. -/
theorem rawseti_keeps_inv (v : LuaValue) (es : List (LuaValue × LuaValue))
    (base : List RegEvent) (C : Int → Prop) (S : lua_State) (obj : LuaObject)
    (evs : List RegEvent) (e : LuaValue × LuaValue) (rest : List LuaValue)
    (hS : S.stack = e.1 :: rest) (he : e ∈ es) (hk : e.1 ≠ .nil) (h0 : obj.refiter ≠ 0)
    (h : lifetime_inv v es base C S obj evs) :
    lifetime_inv v es base C (lua_rawseti S obj.refiter) obj evs := by
  obtain ⟨htab, hev, hne, hreg, hch⟩ := h
  refine ⟨htab, hev, hne, ?_, hch⟩
  simp only [lua_rawseti, hS, List.headD_cons]
  exact registry_inv_cursor_set v es S.registry obj.ref obj.refiter _ e he hk h0 hreg

/-- Releasing the cursor keeps the invariant. -/
theorem unref_keeps_inv (v : LuaValue) (es : List (LuaValue × LuaValue))
    (base : List RegEvent) (C : Int → Prop) (S : lua_State) (obj : LuaObject)
    (evs : List RegEvent) (h0 : obj.refiter ≠ 0)
    (h : lifetime_inv v es base C S obj evs) :
    lifetime_inv v es base C (luaL_unref S obj.refiter) { obj with refiter := 0 }
      (evs ++ [.unref obj.refiter]) := by
  obtain ⟨htab, hev, hne, hreg, hch⟩ := h
  have hge : 0 ≤ obj.refiter := hreg.2.2.1
  simp only [luaL_unref, hge, if_true]
  refine ⟨htab, ?_, by simp [hne], ?_, ?_⟩
  · simp [hev]
  · have hown : own_events (evs ++ [.unref obj.refiter]) =
        own_events evs ++ [.unref obj.refiter] := by
      rw [own_events_append _ _ hne]
      simp [is_proxy_creation]
    rw [hown]
    exact registry_inv_cursor_drop v es S.registry obj.ref obj.refiter _ h0 hreg
  · intro x hx
    rw [List.tail_append_of_ne_nil hne] at hx
    simp only [List.mem_append, List.mem_singleton] at hx
    rcases hx with hx | hx
    · exact hch x hx
    · cases hx

/-- An iteration step on a table proxy, on a stack with room for three values,
returns and keeps the invariant; a proxy it returns owns the handle it created,
and the step leaves one more value on the stack. -/
theorem iternext_keeps_inv (env : Env) (tid : Nat) (es : List (LuaValue × LuaValue))
    (base : List RegEvent) (C : Int → Prop) (L : lua_State) (obj : LuaObject)
    (evs : List RegEvent) (hnn : ∀ e ∈ es, e.1 ≠ .nil)
    (hroom : L.stack.length + 3 ≤ LUA_MINSTACK)
    (h : lifetime_inv (.table tid) es base C L obj evs) :
    ∃ r obj1 L1 evs1, LuaObject_iternext env L obj = some (r, obj1, L1) ∧
      obj1.ref = obj.ref ∧ L1.stack.length = L.stack.length + 1 ∧
      lifetime_inv (.table tid) es base (fun x => C x ∨ r = some (.Lua ⟨x, 0⟩)) L1 obj1
        (evs ++ evs1) := by
  have hes : table_entries L tid = es := h.1 tid rfl
  have hreg : registry_get L.registry obj.ref = .table tid := h.2.2.2.1.1
  have heq := LuaObject_iternext_eq env L obj tid hreg
  rw [hes] at heq
  have hr2 : ¬ LUA_MINSTACK < L.stack.length + 2 := by omega
  have hr3 : ¬ LUA_MINSTACK < L.stack.length + 3 := by omega
  simp only [hr2, if_false] at heq
  -- the next entry exists or the traversal ends: `lua_next` does not fail
  have hnext : ∃ r, table_next es
      (if obj.refiter = 0 then .nil else registry_get L.registry obj.refiter) = some r := by
    by_cases h0 : obj.refiter = 0
    · simp [h0, table_next]
    · obtain ⟨_, e, he, hk⟩ := h.2.2.2.1.2.2.2.1 h0
      simp only [h0, if_false, hk, table_next, hnn e he]
      exact next_after_some es e.1 ⟨e, he, rfl⟩
  obtain ⟨r, hr⟩ := hnext
  rw [hr] at heq
  cases r with
  | none =>
    by_cases h0 : obj.refiter = 0
    · simp only [h0, ne_eq, not_true_eq_false, if_false] at heq
      refine ⟨none, obj, _, [], heq, rfl, rfl, ?_⟩
      rw [List.append_nil]
      exact lifetime_inv_mono _ es base C _ _ obj evs (fun x hx => Or.inl hx)
        (lifetime_inv_stack _ es base C L obj evs _ h)
    · simp only [ne_eq, h0, not_false_eq_true, if_true] at heq
      refine ⟨none, _, _, [.unref obj.refiter], heq, rfl, ?_, ?_⟩
      · rw [luaL_unref_stack]
        rfl
      exact lifetime_inv_mono _ es base C _ _ _ _ (fun x hx => Or.inl hx)
        (unref_keeps_inv _ es base C _ obj evs h0
          (lifetime_inv_stack _ es base C L obj evs _ h))
  | some kv =>
    obtain ⟨k1, v1⟩ := kv
    have hmem : (k1, v1) ∈ es := table_next_mem es _ _ hr
    have hk1 : k1 ≠ .nil := hnn _ hmem
    obtain ⟨evs1, hconv⟩ := convert_keeps_inv env (.table tid) es base C
      { L with stack := k1 :: .table tid :: L.stack } obj evs (-1)
      (lifetime_inv_stack _ es base C L obj evs _ h)
    have hcstack := LuaConvert_stack env { L with stack := k1 :: .table tid :: L.stack } (-1)
    simp only [hr3, if_false] at hcstack heq
    have hC : ∀ x, (C x ∨
        (LuaConvert env { L with stack := k1 :: .table tid :: L.stack } (-1)).1 = .Lua ⟨x, 0⟩) →
        (C x ∨ some (LuaConvert env { L with stack := k1 :: .table tid :: L.stack } (-1)).1 =
          some (.Lua ⟨x, 0⟩)) := by
      intro x hx
      rcases hx with hx | hx
      · exact Or.inl hx
      · exact Or.inr (congrArg some hx)
    by_cases h0 : obj.refiter = 0
    · simp only [h0, if_true] at heq
      obtain ⟨evs2, hfin⟩ := ref_keeps_inv (.table tid) es base _ _ obj (evs ++ evs1)
        (k1, v1) _ hcstack hmem hk1 h0 hconv
      refine ⟨_, _, _, evs1 ++ evs2, heq, rfl, ?_, ?_⟩
      · rw [luaL_ref_stack, hcstack]
        rfl
      rw [← List.append_assoc]
      exact lifetime_inv_mono _ es base _ _ _ _ _ hC hfin
    · simp only [h0, if_false] at heq
      have hfin := rawseti_keeps_inv (.table tid) es base _ _ obj (evs ++ evs1)
        (k1, v1) _ hcstack hmem hk1 h0 hconv
      refine ⟨_, _, _, evs1, heq, rfl, ?_, lifetime_inv_mono _ es base _ _ _ _ _ hC hfin⟩
      simp [lua_rawseti, hcstack]

/-- The iteration steps on a table proxy that the stack has room for return and
keep the invariant. -/
theorem iterate_keeps_inv (env : Env) (tid : Nat) (es : List (LuaValue × LuaValue))
    (base : List RegEvent) (hnn : ∀ e ∈ es, e.1 ≠ .nil) :
    ∀ (steps : Nat) (C : Int → Prop) (L : lua_State) (obj : LuaObject) (evs : List RegEvent),
      L.stack.length + steps + 2 ≤ LUA_MINSTACK →
      lifetime_inv (.table tid) es base C L obj evs →
      ∃ outs objN LN evsN, iterate env steps L obj = some (outs, objN, LN) ∧
        objN.ref = obj.ref ∧
        lifetime_inv (.table tid) es base (fun x => C x ∨ some (PyObject.Lua ⟨x, 0⟩) ∈ outs)
          LN objN (evs ++ evsN) := by
  intro steps
  induction steps with
  | zero =>
    intro C L obj evs _ h
    refine ⟨[], obj, L, [], rfl, rfl, ?_⟩
    rw [List.append_nil]
    exact lifetime_inv_mono _ es base C _ L obj evs (fun x hx => Or.inl hx) h
  | succ steps ih =>
    intro C L obj evs hroom h
    obtain ⟨r, obj1, L1, evs1, hstep, href1, hlen1, hinv1⟩ :=
      iternext_keeps_inv env tid es base C L obj evs hnn (by omega) h
    obtain ⟨outs, objN, LN, evsN, hrest, hrefN, hinvN⟩ :=
      ih _ L1 obj1 (evs ++ evs1) (by omega) hinv1
    refine ⟨r :: outs, objN, LN, evs1 ++ evsN, ?_, hrefN.trans href1, ?_⟩
    · simp [iterate, hstep, hrest]
    · rw [← List.append_assoc]
      refine lifetime_inv_mono _ es base _ _ LN objN _ ?_ hinvN
      intro x hx
      rcases hx with (hx | hx) | hx
      · exact Or.inl hx
      · exact Or.inr (by rw [hx]; exact List.mem_cons_self _ _)
      · exact Or.inr (List.mem_cons_of_mem _ hx)

/-- The creation of a proxy establishes the invariant. -/
theorem LuaObject_New_inv (L : lua_State) (n : Int) (v : LuaValue)
    (es : List (LuaValue × LuaValue))
    (hv : index2value L n = some v) (hnn : v ≠ .nil)
    (hes : ∀ tid, v = .table tid → table_entries L tid = es) :
    lifetime_inv v es L.events (fun _ => False) (LuaObject_New L n).2 (LuaObject_New L n).1
      [.ref (LuaObject_New L n).1.ref .proxy_value] := by
  rw [LuaObject_New_eq L n v hv hnn]
  have hpos := fresh_ref_pos L.registry
  refine ⟨hes, rfl, by simp, ⟨registry_get_cons_self _ _ _, hpos, le_refl 0, ?_, ?_,
    [fresh_ref L.registry], ?_, ?_, ?_, ?_, ?_, ?_⟩, ?_⟩
  · intro hc; exact absurd rfl hc
  · simp [own_events]
  · simp [own_events, replay, replay_event]
  · simp
  · simp
  · intro hc; exact absurd rfl hc
  · intro x hx
    simp only [List.mem_singleton] at hx
    subst hx
    rw [registry_get_cons_self]
    exact hnn
  · intro x hx
    simp only [List.mem_singleton] at hx
    exact Or.inl hx
  · intro x hx
    simp at hx

/-- The destruction of a proxy releases its value handle, once, and its cursor
handle when it has one: afterwards none of its handles is live. -/
theorem LuaObject_dealloc_inv (v : LuaValue) (es : List (LuaValue × LuaValue))
    (base : List RegEvent) (C : Int → Prop) (L : lua_State) (obj : LuaObject)
    (evs : List RegEvent) (h : lifetime_inv v es base C L obj evs) :
    ∃ tail, (LuaObject_dealloc L obj).events = base ++ (evs ++ tail) ∧
      replay (own_events (evs ++ tail)) = some [] ∧
      (evs ++ tail).count (.unref obj.ref) = 1 ∧
      ∀ x, RegEvent.ref x .proxy_value ∈ (evs ++ tail).tail → C x := by
  obtain ⟨_, hev, hne, ⟨h1, h2, h3, h4, h5, live, h6, h7, h8, h9, h10, h11⟩, hch⟩ := h
  have hge : 0 ≤ obj.ref := by omega
  have hcount0 : evs.count (.unref obj.ref) = 0 := by
    rw [← count_unref_own_events]
    exact h5
  by_cases h0 : obj.refiter = 0
  · refine ⟨[.unref obj.ref], ?_, ?_, ?_, ?_⟩
    · simp [LuaObject_dealloc, h0, luaL_unref, hge, hev]
    · have hown : own_events (evs ++ [.unref obj.ref]) = own_events evs ++ [.unref obj.ref] := by
        rw [own_events_append _ _ hne]
        simp [is_proxy_creation]
      rw [hown, replay_append, h6]
      simp only [replay_event, h8, if_true, Option.some.injEq]
      apply List.eq_nil_iff_forall_not_mem.mpr
      intro x hx
      obtain ⟨hxne, hxl⟩ := (List.Nodup.mem_erase_iff h7).mp hx
      rcases h11 x hxl with a | a
      · exact hxne a
      · exact a.1 h0
    · rw [List.count_append, hcount0, List.count_singleton]
      simp
    · intro x hx
      rw [List.tail_append_of_ne_nil hne] at hx
      simp only [List.mem_append, List.mem_singleton] at hx
      rcases hx with hx | hx
      · exact hch x hx
      · cases hx
  · obtain ⟨hne2, _⟩ := h4 h0
    have hmem : obj.refiter ∈ live.erase obj.ref :=
      (List.Nodup.mem_erase_iff h7).mpr ⟨hne2, h9 h0⟩
    have hdiff : RegEvent.unref obj.refiter ≠ RegEvent.unref obj.ref := by
      intro hh
      exact hne2 (RegEvent.unref.inj hh)
    refine ⟨[.unref obj.ref, .unref obj.refiter], ?_, ?_, ?_, ?_⟩
    · simp [LuaObject_dealloc, h0, luaL_unref, hge, h3, hev]
    · have hown : own_events (evs ++ [.unref obj.ref, .unref obj.refiter]) =
          (own_events evs ++ [.unref obj.ref]) ++ [.unref obj.refiter] := by
        rw [own_events_append _ _ hne]
        simp [is_proxy_creation]
      rw [hown, replay_append, replay_append, h6]
      simp only [replay_event, h8, if_true, hmem, Option.some.injEq]
      apply List.eq_nil_iff_forall_not_mem.mpr
      intro x hx
      obtain ⟨hxne2, hx1⟩ := (List.Nodup.mem_erase_iff (h7.erase _)).mp hx
      obtain ⟨hxne, hxl⟩ := (List.Nodup.mem_erase_iff h7).mp hx1
      rcases h11 x hxl with a | a
      · exact hxne a
      · exact hxne2 a.2
    · rw [List.count_append, hcount0]
      simp [List.count_cons, hdiff]
    · intro x hx
      rw [List.tail_append_of_ne_nil hne] at hx
      simp only [List.mem_append, List.mem_cons, List.mem_singleton] at hx
      rcases hx with hx | hx | hx | hx
      · exact hch x hx
      · cases hx
      · cases hx
      · cases hx

/-- C7 (amended). The lifetime of a proxy of a value that is not nil: creation
by `LuaObject_New`, then a number of iteration steps, then `LuaObject_dealloc`,
where the steps, if there are any, are taken on a proxy of a table and the stack
has room for two values and one more for each step. The lifetime runs to its
end, and of the registry events it causes: the first is the creation of the
value handle; the events of the proxy itself (that creation, the registrations
of its cursor and all releases) replay without a fault and leave no handle
live, so no handle is created while live, none is released twice or while not
live, and none is leaked; the value handle is released exactly once; and every
other event is the creation of the value handle of a proxy that a step returned
to the host. -/
theorem proxy_lifetime_releases (env : Env) (L0 : lua_State) (n : Int) (v : LuaValue)
    (steps : Nat) (hv : index2value L0 n = some v) (hnn : v ≠ .nil)
    (htab : steps = 0 ∨ (L0.stack.length + steps + 2 ≤ LUA_MINSTACK ∧
      ∃ tid, v = .table tid ∧ ∀ e ∈ table_entries L0 tid, e.1 ≠ .nil)) :
    ∃ outs objN LN evs,
      iterate env steps (LuaObject_New L0 n).2 (LuaObject_New L0 n).1 =
        some (outs, objN, LN) ∧
      (LuaObject_dealloc LN objN).events = L0.events ++ evs ∧
      evs.head? = some (.ref (LuaObject_New L0 n).1.ref .proxy_value) ∧
      replay (own_events evs) = some [] ∧
      evs.count (.unref (LuaObject_New L0 n).1.ref) = 1 ∧
      ∀ h, RegEvent.ref h .proxy_value ∈ evs.tail → some (PyObject.Lua ⟨h, 0⟩) ∈ outs := by
  rcases htab with h0 | ⟨hroom, tid, hvt, hkeys⟩
  · subst h0
    have hinv := LuaObject_New_inv L0 n v
      (match v with | .table tid => table_entries L0 tid | _ => []) hv hnn
      (by intro tid ht; subst ht; rfl)
    obtain ⟨tail, hev, hrep, hcount, hch⟩ := LuaObject_dealloc_inv _ _ _ _ _ _ _ hinv
    exact ⟨[], _, _, _, rfl, hev, rfl, hrep, hcount, fun h hh => (hch h hh).elim⟩
  · subst hvt
    have hinv := LuaObject_New_inv L0 n (.table tid) (table_entries L0 tid) hv hnn
      (by intro t ht; cases ht; rfl)
    obtain ⟨outs, objN, LN, evsN, hit, href, hinvN⟩ :=
      iterate_keeps_inv env tid (table_entries L0 tid) L0.events hkeys steps _ _ _ _
        (by rw [LuaObject_New_stack]; exact hroom) hinv
    obtain ⟨tail, hev, hrep, hcount, hch⟩ := LuaObject_dealloc_inv _ _ _ _ _ _ _ hinvN
    rw [href] at hcount
    refine ⟨outs, objN, LN, _, hit, hev, rfl, hrep, hcount, ?_⟩
    intro h hh
    rcases hch h hh with hf | hm
    · exact hf.elim
    · exact hm

/-- The amended C7 at the demo table: creation, three iteration steps,
destruction. -/
theorem proxy_lifetime_releases_witness :
    ∃ outs objN LN evs,
      iterate demo_env 3 (LuaObject_New (lua_rawgeti demo_state 1) (-1)).2
          (LuaObject_New (lua_rawgeti demo_state 1) (-1)).1 = some (outs, objN, LN) ∧
      (LuaObject_dealloc LN objN).events = (lua_rawgeti demo_state 1).events ++ evs ∧
      evs.head? =
        some (.ref (LuaObject_New (lua_rawgeti demo_state 1) (-1)).1.ref .proxy_value) ∧
      replay (own_events evs) = some [] ∧
      evs.count (.unref (LuaObject_New (lua_rawgeti demo_state 1) (-1)).1.ref) = 1 ∧
      ∀ h, RegEvent.ref h .proxy_value ∈ evs.tail → some (PyObject.Lua ⟨h, 0⟩) ∈ outs :=
  proxy_lifetime_releases demo_env (lua_rawgeti demo_state 1) (-1) (.table 7) 3 rfl
    (by decide) (Or.inr ⟨by decide, 7, rfl, by decide⟩)

/-- C7 as stated fails: not every finite sequence of iteration steps on any
proxy has a defined outcome. On the proxy created for the function under the
registry key 2 a single step hands a function to `lua_next`, which is undefined.
On the proxy created for the demo table each step leaves the table on the
stack: with one value on the stack at the creation, 18 steps in a row are
defined and the 19th pushes beyond `LUA_MINSTACK` values. -/
theorem proxy_lifetime_counterexample :
    index2value (lua_rawgeti demo_state 2) (-1) = some (.function 1) ∧
    iterate demo_env 1 (LuaObject_New (lua_rawgeti demo_state 2) (-1)).2
      (LuaObject_New (lua_rawgeti demo_state 2) (-1)).1 = none ∧
    (iterate demo_env 18 (LuaObject_New (lua_rawgeti demo_state 1) (-1)).2
      (LuaObject_New (lua_rawgeti demo_state 1) (-1)).1).isSome = true ∧
    iterate demo_env 19 (LuaObject_New (lua_rawgeti demo_state 1) (-1)).2
      (LuaObject_New (lua_rawgeti demo_state 1) (-1)).1 = none := by
  refine ⟨rfl, rfl, ?_, ?_⟩
  · rfl
  · rfl

/-! ## An argument without a foreign representation -/

theorem LuaCall_push_fail (env : Env) (items : List PyObject) (i : Nat)
    (hi : i < items.length) (hbad : env.py_repr items[i] = none)
    (hfirst : ∀ j (hj : j < i), (env.py_repr items[j]).isSome) :
    ∀ (todo j : Nat) (L : lua_State), j + todo = items.length → j ≤ i →
      LuaCall_push env items todo j L =
        (some ⟨.TypeError, "failed to convert argument #%d", .int i⟩,
          { L with stack := [] }) := by
  intro todo
  induction todo with
  | zero => intro j L hlen hji; omega
  | succ todo ih =>
    intro j L hlen hji
    have hj : j < items.length := by omega
    have hget : items[j]? = some items[j] := List.getElem?_eq_getElem hj
    rcases Nat.lt_or_eq_of_le hji with hlt | heq
    · have hsome := hfirst j hlt
      cases hw : env.py_repr items[j] with
      | none => simp [hw] at hsome
      | some w =>
        have hstep := ih (j + 1) (lua_push L w) (by omega) (by omega)
        simp only [LuaCall_push, hget, py_convert, hw]
        simpa [lua_push] using hstep
    · subst heq
      simp [LuaCall_push, hget, py_convert, hbad, lua_settop_zero]

/-- C8. When the arguments passed to `LuaCall` hold a value without a foreign
representation and `i` is the index of the first such value, `LuaCall` fails
with the error "failed to convert argument #i", no protected call is made (the
call log is unchanged, and so is everything but the stack), and the stack is
empty when `LuaCall` returns. -/
theorem LuaCall_unconvertible_argument (env : Env) (L : lua_State) (items : List PyObject)
    (i : Nat) (hi : i < items.length) (hbad : env.py_repr items[i] = none)
    (hfirst : ∀ j (hj : j < i), (env.py_repr items[j]).isSome) :
    ∃ L1, LuaCall env L (.Tuple items) =
        some (⟨none, some ⟨.TypeError, "failed to convert argument #%d", .int i⟩⟩, L1) ∧
      L1.stack = [] ∧ L1.calls = L.calls ∧ L1 = { L with stack := [] } := by
  have h := LuaCall_push_fail env items i hi hbad hfirst items.length 0 L (by simp) (by omega)
  refine ⟨{ L with stack := [] }, ?_, rfl, rfl, rfl⟩
  simp only [LuaCall, h]

/-- C8 at a call whose second argument, a tuple, has no foreign representation
in the demo runtime. -/
theorem LuaCall_unconvertible_argument_witness :
    ∃ L1, LuaCall demo_env (lua_rawgeti demo_state 2)
        (.Tuple [.Bool true, .Tuple [], .Other 0]) =
        some (⟨none, some ⟨.TypeError, "failed to convert argument #%d", .int (1 : Nat)⟩⟩, L1) ∧
      L1.stack = [] ∧ L1.calls = (lua_rawgeti demo_state 2).calls ∧
      L1 = { lua_rawgeti demo_state 2 with stack := [] } :=
  LuaCall_unconvertible_argument demo_env (lua_rawgeti demo_state 2)
    [.Bool true, .Tuple [], .Other 0] 1 (by decide) rfl
    (by intro j hj; have h0 : j = 0 := by omega
        subst h0; rfl)

/-! ## `require` -/

/-- C9 fails on the code. `Lua_require` parses its arguments with the format
`"k"`, which accepts exactly one integer: called with a handle and a module name
it returns `None` (with the parse error pending) and leaves the state untouched,
so the loader `require` is not called; called with the handle alone it calls
`require` with the handle itself as the argument. -/
theorem require_drops_module_name (env : Env) (L : lua_State) (h : Int) (m : List Nat) :
    Lua_require env L (.Tuple [.Long h, .Unicode m]) =
      some (⟨some .None, some parse_error⟩, L) ∧
    (Lua_require demo_env demo_state (.Tuple [.Long 0])).map (fun r => r.2.calls) =
      some [(.function 1, [.number (lua_Number.ofInt 0)])] := by
  refine ⟨rfl, ?_⟩
  decide!

/-! ## Numbers -/

/-- The binary search returns the integer logarithm. -/
theorem ilog2_spec : ∀ (j a acc : Nat), 2 ^ acc ≤ a → a < 2 ^ (acc + 2 ^ j) →
    2 ^ ilog2 j a acc ≤ a ∧ a < 2 ^ (ilog2 j a acc + 1) := by
  intro j
  induction j with
  | zero =>
    intro a acc h1 h2
    simpa [ilog2] using And.intro h1 h2
  | succ j ih =>
    intro a acc h1 h2
    unfold ilog2
    split
    · rename_i hge
      apply ih a (acc + 2 ^ j) hge
      have : acc + 2 ^ j + 2 ^ j = acc + 2 ^ (j + 1) := by rw [pow_succ]; omega
      rw [this]
      exact h2
    · rename_i hlt
      exact ih a acc h1 (by omega)

theorem ilog2_spec12 (a : Nat) (hpos : 0 < a) (hb : a < 2 ^ LOG_BOUND) :
    2 ^ ilog2 12 a 0 ≤ a ∧ a < 2 ^ (ilog2 12 a 0 + 1) := by
  have h12 : (0 + 2 ^ 12 : Nat) = LOG_BOUND := by norm_num [LOG_BOUND]
  apply ilog2_spec 12 a 0
  · rw [pow_zero]; exact hpos
  · rw [h12]; exact hb

theorem pow_two_unique (a r s : Nat) (h1 : 2 ^ r ≤ a) (h2 : a < 2 ^ (r + 1))
    (h3 : 2 ^ s ≤ a) (h4 : a < 2 ^ (s + 1)) : r = s := by
  have h5 : 2 ^ r < 2 ^ (s + 1) := lt_of_le_of_lt h1 h4
  have h6 : 2 ^ s < 2 ^ (r + 1) := lt_of_le_of_lt h3 h2
  have h7 := (Nat.pow_lt_pow_iff_right (by norm_num : 1 < 2)).mp h5
  have h8 := (Nat.pow_lt_pow_iff_right (by norm_num : 1 < 2)).mp h6
  omega

/-- A number below `2 ^ 53` has no excess bits. -/
theorem sig_excess_small (a : Nat) (h : a < 2 ^ 53) : sig_excess a = 0 := by
  unfold sig_excess
  by_cases ha : a = 0
  · subst ha
    have : ∀ j acc, ilog2 j 0 acc = acc := by
      intro j
      induction j with
      | zero => intro acc; rfl
      | succ j ih =>
        intro acc
        have hpos : 0 < 2 ^ (acc + 2 ^ j) := Nat.pos_pow_of_pos _ (by norm_num)
        simp [ilog2, Nat.not_le.mpr hpos, ih]
    simp [this]
  · have hle : (2 : Nat) ^ 53 ≤ 2 ^ LOG_BOUND :=
      (Nat.pow_le_pow_iff_right (by norm_num : 1 < 2)).mpr (by unfold LOG_BOUND; omega)
    have hs := ilog2_spec12 a (Nat.pos_of_ne_zero ha) (lt_of_lt_of_le h hle)
    have h5 : 2 ^ ilog2 12 a 0 < 2 ^ 53 := lt_of_le_of_lt hs.1 h
    have h7 := (Nat.pow_lt_pow_iff_right (by norm_num : 1 < 2)).mp h5
    omega

/-- Scaling a number of at least 54 bits by `2 ^ m` adds `m` excess bits. -/
theorem sig_excess_scale (a m : Nat) (h : 2 ^ 53 ≤ a) (hb : a * 2 ^ m < 2 ^ LOG_BOUND) :
    sig_excess (a * 2 ^ m) = sig_excess a + m := by
  have hpos : 0 < a := lt_of_lt_of_le (Nat.pos_pow_of_pos _ (by norm_num)) h
  have hm : 1 ≤ 2 ^ m := Nat.one_le_two_pow
  have ha : a < 2 ^ LOG_BOUND := lt_of_le_of_lt (Nat.le_mul_of_pos_right a hm) hb
  have hs := ilog2_spec12 a hpos ha
  have hS := ilog2_spec12 (a * 2 ^ m) (Nat.mul_pos hpos hm) hb
  have h1 : 2 ^ (ilog2 12 a 0 + m) ≤ a * 2 ^ m := by
    rw [pow_add]
    exact Nat.mul_le_mul_right _ hs.1
  have h2 : a * 2 ^ m < 2 ^ (ilog2 12 a 0 + m + 1) := by
    have : ilog2 12 a 0 + m + 1 = (ilog2 12 a 0 + 1) + m := by omega
    rw [this, pow_add]
    exact Nat.mul_lt_mul_of_pos_right hs.2 hm
  have huniq := pow_two_unique (a * 2 ^ m) _ _ hS.1 hS.2 h1 h2
  have h5 : 2 ^ 53 < 2 ^ (ilog2 12 a 0 + 1) := lt_of_le_of_lt h hs.2
  have h7 := (Nat.pow_lt_pow_iff_right (by norm_num : 1 < 2)).mp h5
  unfold sig_excess
  rw [huniq]
  omega

/-- The conversion `(double)z` is exact when `z` is the value of a double. -/
theorem long_to_double_exact (z : Int) (hd : isDouble (z * 2 ^ FRAC_BITS) = true)
    (hz : z.natAbs ≤ 2 ^ 63) : long_to_double z = z := by
  have hdvd : 2 ^ sig_excess z.natAbs ∣ z.natAbs := by
    by_cases hsmall : z.natAbs < 2 ^ 53
    · rw [sig_excess_small _ hsmall]
      simp
    · have hge : 2 ^ 53 ≤ z.natAbs := Nat.le_of_not_lt hsmall
      have habs : (z * 2 ^ FRAC_BITS).natAbs = z.natAbs * 2 ^ FRAC_BITS := by
        have h2abs : Int.natAbs 2 = 2 := rfl
        rw [Int.natAbs_mul, Int.natAbs_pow, h2abs]
      have hb : z.natAbs * 2 ^ FRAC_BITS < 2 ^ LOG_BOUND := by
        have h1 : z.natAbs * 2 ^ FRAC_BITS ≤ 2 ^ 63 * 2 ^ FRAC_BITS :=
          Nat.mul_le_mul_right _ hz
        have h2 : (2 : Nat) ^ 63 * 2 ^ FRAC_BITS = 2 ^ (63 + FRAC_BITS) := (pow_add 2 63 _).symm
        have h3 : (2 : Nat) ^ (63 + FRAC_BITS) < 2 ^ LOG_BOUND :=
          (Nat.pow_lt_pow_iff_right (by norm_num : 1 < 2)).mpr
            (by unfold FRAC_BITS LOG_BOUND; omega)
        rw [h2] at h1
        exact lt_of_le_of_lt h1 h3
      simp only [isDouble, habs, Bool.and_eq_true, beq_iff_eq, decide_eq_true_eq] at hd
      rw [sig_excess_scale _ _ hge hb, pow_add] at hd
      have hmul := Nat.dvd_of_mod_eq_zero hd.1
      exact (Nat.mul_dvd_mul_iff_right (Nat.pos_pow_of_pos _ (by norm_num))).mp hmul
  have hr : z.natAbs % 2 ^ sig_excess z.natAbs = 0 := Nat.mod_eq_zero_of_dvd hdvd
  have hpos : 0 < 2 ^ sig_excess z.natAbs := Nat.pos_pow_of_pos _ (by norm_num)
  unfold long_to_double
  simp only [hr, Nat.mul_zero]
  have hne : ¬ (0 > 2 ^ sig_excess z.natAbs ∨
      (0 = 2 ^ sig_excess z.natAbs ∧ z.natAbs / 2 ^ sig_excess z.natAbs % 2 = 1)) := by
    intro h
    rcases h with h | h
    · omega
    · omega
  rw [if_neg hne, Nat.div_mul_cancel hdvd]
  exact Int.sign_mul_natAbs z

theorem pow_frac_ne_zero : (2 : Int) ^ FRAC_BITS ≠ 0 :=
  pow_ne_zero _ (by norm_num)

/-- The truncation of a number that is the double of an integer `w`. -/
theorem tdiv_of_eq (n w : Int) (h : lua_Number.finite n = lua_Number.ofInt w) :
    Int.tdiv n (2 ^ FRAC_BITS) = w := by
  simp only [lua_Number.ofInt, lua_Number.finite.injEq] at h
  rw [h]
  exact Int.mul_tdiv_cancel w pow_frac_ne_zero

/-- Where the conversion of a number does as specified: on a platform whose
result for a conversion `(long)num` outside the range of `long` converts back to
a double inside that range (x86-64 delivers `LONG_MIN`). There, when `num` has
no fractional part and fits a C `long`, that is `num` is the double of an
integer `z` with `LONG_MIN ≤ z ≤ LONG_MAX`, the result is the host integer `z`,
and in every other case it is the host float with the same value `num`. The
first half holds on every platform. -/
theorem LuaConvert_number (env : Env) (L : lua_State) (idx : Int) (num : lua_Number)
    (hidx : index2value L idx = some (.number num))
    (hwf : ∀ n, num = .finite n → isDouble n = true) :
    (∀ z : Int, LONG_MIN ≤ z → z ≤ LONG_MAX → num = lua_Number.ofInt z →
      (LuaConvert env L idx).1 = .Long z) ∧
    (LONG_MIN ≤ long_to_double env.long_overflow ∧
        long_to_double env.long_overflow ≤ LONG_MAX →
      (∀ z : Int, LONG_MIN ≤ z → z ≤ LONG_MAX → num ≠ lua_Number.ofInt z) →
      (LuaConvert env L idx).1 = .Float num) := by
  have hconv : (LuaConvert env L idx).1 =
      if number_ne_long num (double_to_long env.long_overflow num) then .Float num
      else .Long (double_to_long env.long_overflow num) := by
    simp only [LuaConvert, hidx]
    split <;> rfl
  constructor
  · intro z hlo hhi hnum
    have hd : isDouble (z * 2 ^ FRAC_BITS) = true := hwf _ hnum
    have habs : z.natAbs ≤ 2 ^ 63 := by
      unfold LONG_MIN LONG_MAX at *
      omega
    have hexact := long_to_double_exact z hd habs
    have hcast : double_to_long env.long_overflow num = z := by
      rw [hnum]
      simp only [lua_Number.ofInt, double_to_long, Int.mul_tdiv_cancel z pow_frac_ne_zero]
      rw [if_pos ⟨hlo, hhi⟩]
    have hne : number_ne_long num z = false := by
      rw [hnum]
      simp [number_ne_long, lua_Number.ofInt, hexact]
    rw [hconv, hcast, hne]
    rfl
  · intro hplat hnot
    have hne : number_ne_long num (double_to_long env.long_overflow num) = true := by
      cases num with
      | nan => rfl
      | inf b => simp [number_ne_long, lua_Number.ofInt]
      | finite n =>
        simp only [number_ne_long, decide_eq_true_eq]
        intro heq
        -- `n` is the double of the integer `w` the cast result converts back to
        have htd := tdiv_of_eq n _ heq
        by_cases hr : LONG_MIN ≤ Int.tdiv n (2 ^ FRAC_BITS) ∧ Int.tdiv n (2 ^ FRAC_BITS) ≤ LONG_MAX
        · have hcast : double_to_long env.long_overflow (.finite n) =
              Int.tdiv n (2 ^ FRAC_BITS) := by
            simp only [double_to_long]
            rw [if_pos hr]
          rw [hcast] at heq htd
          rw [← htd] at heq
          exact hnot _ hr.1 hr.2 heq
        · have hcast : double_to_long env.long_overflow (.finite n) = env.long_overflow := by
            simp only [double_to_long]
            rw [if_neg hr]
          rw [hcast] at htd
          rw [htd] at hr
          exact hr hplat
    rw [hconv, hne]
    rfl

theorem finite_wf (m : Int) (hd : isDouble m = true) :
    ∀ n, lua_Number.finite m = .finite n → isDouble n = true := by
  intro n h
  cases h
  exact hd

/-- The conversion on x86-64 at the numbers 5 and 0.5: the integer 5 and the
float 0.5. -/
theorem LuaConvert_number_witness :
    (LuaConvert demo_env (lua_push demo_state (.number (lua_Number.ofInt 5))) (-1)).1 =
      .Long 5 ∧
    (LuaConvert demo_env (lua_push demo_state (.number (.finite (2 ^ 1073)))) (-1)).1 =
      .Float (.finite (2 ^ 1073)) :=
  ⟨(LuaConvert_number demo_env (lua_push demo_state (.number (lua_Number.ofInt 5))) (-1)
      (lua_Number.ofInt 5) (index2value_top _ _ _ rfl)
      (finite_wf (5 * 2 ^ FRAC_BITS) (by decide!))).1 5 (by decide) (by decide) rfl,
   (LuaConvert_number demo_env (lua_push demo_state (.number (.finite (2 ^ 1073)))) (-1)
      (.finite (2 ^ 1073)) (index2value_top _ _ _ rfl)
      (finite_wf (2 ^ 1073) (by decide!))).2 (by decide!)
      (by
        intro z _ _ h
        have htd := tdiv_of_eq _ _ h
        have hz : z = 0 := by rw [← htd]; decide!
        subst hz
        revert h
        decide!)⟩

/-- Why the platform matters: where the conversion `(long)num` saturates, the
number `2 ^ 63` is cast to `LONG_MAX`, which converts back to the double
`2 ^ 63`, so the test `num != (long)num` fails; where it delivers `LONG_MIN`
the test succeeds. In C this conversion is undefined. -/
theorem saturating_cast_at_two_pow_63 :
    double_to_long LONG_MAX (lua_Number.ofInt (2 ^ 63)) = 2 ^ 63 - 1 ∧
    number_ne_long (lua_Number.ofInt (2 ^ 63))
      (double_to_long LONG_MAX (lua_Number.ofInt (2 ^ 63))) = false ∧
    number_ne_long (lua_Number.ofInt (2 ^ 63))
      (double_to_long LONG_MIN (lua_Number.ofInt (2 ^ 63))) = true := by
  decide!

/-- C10 fails on the code for a number outside the range of `long`. The code
evaluates `(long)num` before any test of the range, which C leaves undefined
for such a number. The number `2 ^ 63` is a double and does not fit a `long`;
on a platform where the conversion saturates (AArch64) `LuaConvert` returns for
it the host integer `2 ^ 63 - 1`, which is not a float and has another value. -/
theorem LuaConvert_number_out_of_range (env : Env) (L : lua_State) (idx : Int)
    (hidx : index2value L idx = some (.number (lua_Number.ofInt (2 ^ 63))))
    (hsat : env.long_overflow = LONG_MAX) :
    isDouble (2 ^ 63 * 2 ^ FRAC_BITS) = true ∧ LONG_MAX < 2 ^ 63 ∧
    (LuaConvert env L idx).1 = .Long (2 ^ 63 - 1) := by
  refine ⟨by decide!, by decide, ?_⟩
  have hconv : (LuaConvert env L idx).1 =
      if number_ne_long (lua_Number.ofInt (2 ^ 63))
          (double_to_long env.long_overflow (lua_Number.ofInt (2 ^ 63))) then
        .Float (lua_Number.ofInt (2 ^ 63))
      else .Long (double_to_long env.long_overflow (lua_Number.ofInt (2 ^ 63))) := by
    simp only [LuaConvert, hidx]
    split <;> rfl
  rw [hconv, hsat, saturating_cast_at_two_pow_63.2.1, saturating_cast_at_two_pow_63.1]
  rfl

/-- The failure of C10 in the demo state on a platform that saturates. -/
theorem LuaConvert_number_out_of_range_witness :
    isDouble (2 ^ 63 * 2 ^ FRAC_BITS) = true ∧ LONG_MAX < 2 ^ 63 ∧
    (LuaConvert demo_env_saturating
      (lua_push demo_state (.number (lua_Number.ofInt (2 ^ 63)))) (-1)).1 =
        .Long (2 ^ 63 - 1) :=
  LuaConvert_number_out_of_range demo_env_saturating
    (lua_push demo_state (.number (lua_Number.ofInt (2 ^ 63)))) (-1)
    (index2value_top _ _ _ rfl) rfl

/-! ## Comparison of two proxies -/

theorem lua_tointeger_frame (L : lua_State) (op : Int) (x y : LuaValue) :
    lua_tointeger (pcmp_frame L op x y) (-3) = op := by
  have h := index2value_third (pcmp_frame L op x y) y x (.number (lua_Number.ofInt op)) [] rfl
  simp only [lua_tointeger, h, lua_Number.ofInt]
  exact Int.mul_tdiv_cancel op pow_frac_ne_zero

theorem lua_compare_frame (env : Env) (L : lua_State) (s : List LuaValue) (x y : LuaValue)
    (op : Nat) (h : L.stack = y :: x :: s) :
    lua_compare env L (-2) (-1) op = env.compare x y op := by
  simp only [lua_compare, index2value_second L y x s h, index2value_top L y (x :: s) h]

/-- A comparison of two proxies when `LuaObject_pcmp` pushes the truth value
the primitive gave, `r`, or raises its error: the result is that of `r`, and it
is left on top of the stack. -/
theorem richcmp_of_pcmp (env : Env) (L F : lua_State) (a b : LuaObject) (op : Int)
    (r : Except LuaValue Bool)
    (h : LuaObject_pcmp env (pcmp_frame L op (registry_get L.registry a.ref)
        (registry_get L.registry b.ref)) = r.map (fun t => (1, lua_pushboolean F t))) :
    (LuaObject_richcmp env L a (.Lua b) op).map (fun x => x.1) = some (compare_result r) := by
  simp only [pcmp_frame] at h
  simp only [LuaObject_richcmp, lua_pcall, lua_rawgeti, lua_pushinteger, lua_push,
    call_function, List.getElem?_cons_succ, List.getElem?_cons_zero, if_true, List.take,
    List.reverse_cons, List.reverse_nil, List.nil_append, List.cons_append, List.drop, h]
  cases r with
  | ok t =>
    simp [Except.map, lua_pushboolean, lua_push, adjust_results, lua_toboolean, index2value,
      compare_result]
  | error e =>
    simp [Except.map, index2value, compare_result]

theorem lua_insert_frame (L : lua_State) (op : Int) (x y : LuaValue) :
    lua_insert (pcmp_frame L op x y) (-2) = pcmp_frame L op y x := by
  simp [lua_insert, pcmp_frame]

/-- `LuaObject_pcmp` on `eq`, `lt`, `le`: the primitive on the operands as
given. -/
theorem LuaObject_pcmp_direct (env : Env) (L : lua_State) (x y : LuaValue) :
    LuaObject_pcmp env (pcmp_frame L Py_EQ x y) =
      (env.compare x y LUA_OPEQ).map (fun t => (1, lua_pushboolean (pcmp_frame L Py_EQ x y) t)) ∧
    LuaObject_pcmp env (pcmp_frame L Py_LT x y) =
      (env.compare x y LUA_OPLT).map (fun t => (1, lua_pushboolean (pcmp_frame L Py_LT x y) t)) ∧
    LuaObject_pcmp env (pcmp_frame L Py_LE x y) =
      (env.compare x y LUA_OPLE).map
        (fun t => (1, lua_pushboolean (pcmp_frame L Py_LE x y) t)) := by
  have hc : ∀ op k, lua_compare env (pcmp_frame L op x y) (-2) (-1) k = env.compare x y k :=
    fun op k => lua_compare_frame env _ [.number (lua_Number.ofInt op)] x y k rfl
  refine ⟨?_, ?_, ?_⟩
  · simp only [LuaObject_pcmp, lua_tointeger_frame, hc, if_true]
  · simp only [LuaObject_pcmp, lua_tointeger_frame, hc]
    simp [Py_LT, Py_EQ, Py_NE, Py_GT]
  · simp only [LuaObject_pcmp, lua_tointeger_frame, hc]
    simp [Py_LE, Py_LT, Py_EQ, Py_NE, Py_GT, Py_GE]

/-- `LuaObject_pcmp` on `gt` and `ge`: the operands are swapped by `lua_insert`
and the code of `lt` and `le` runs. -/
theorem LuaObject_pcmp_swapped (env : Env) (L : lua_State) (x y : LuaValue) :
    LuaObject_pcmp env (pcmp_frame L Py_GT x y) =
      (env.compare y x LUA_OPLT).map (fun t => (1, lua_pushboolean (pcmp_frame L Py_GT y x) t)) ∧
    LuaObject_pcmp env (pcmp_frame L Py_GE x y) =
      (env.compare y x LUA_OPLE).map
        (fun t => (1, lua_pushboolean (pcmp_frame L Py_GE y x) t)) := by
  have hc : ∀ op k, lua_compare env (pcmp_frame L op y x) (-2) (-1) k = env.compare y x k :=
    fun op k => lua_compare_frame env _ [.number (lua_Number.ofInt op)] y x k rfl
  refine ⟨?_, ?_⟩
  · simp only [LuaObject_pcmp, lua_tointeger_frame, lua_insert_frame, hc]
    simp [Py_EQ, Py_NE, Py_GT]
  · simp only [LuaObject_pcmp, lua_tointeger_frame, lua_insert_frame, hc]
    simp [Py_LT, Py_EQ, Py_NE, Py_GT, Py_GE]

/-- `LuaObject_pcmp` on `ne`: the negation of the equality primitive. -/
theorem LuaObject_pcmp_ne (env : Env) (L : lua_State) (x y : LuaValue) :
    LuaObject_pcmp env (pcmp_frame L Py_NE x y) =
      ((env.compare x y LUA_OPEQ).map (fun t => !t)).map
        (fun t => (1, lua_pushboolean (pcmp_frame L Py_NE x y) t)) := by
  have hc := lua_compare_frame env (pcmp_frame L Py_NE x y)
    [.number (lua_Number.ofInt Py_NE)] x y LUA_OPEQ rfl
  simp only [LuaObject_pcmp, lua_tointeger_frame, hc]
  cases env.compare x y LUA_OPEQ <;> simp [Py_EQ, Py_NE, Except.map]

/-- C11. For two proxies `a` and `b` of one interpreter, `compare(a, b, gt)` is
the result of the foreign less-than primitive on the swapped operands (`b < a`)
and `compare(a, b, ge)` that of the less-or-equal primitive on the swapped
operands (`b <= a`), so `compare(a, b, gt) = compare(b, a, lt)` and
`compare(a, b, ge) = compare(b, a, le)`; `eq` is the result of the foreign
equality on `(a, b)` and `ne` that of its negation. An error the primitive
raises is returned as the error of the comparison. -/
theorem richcmp_proxies (env : Env) (L : lua_State) (a b : LuaObject) :
    (LuaObject_richcmp env L a (.Lua b) Py_GT).map (fun r => r.1) =
      some (compare_result (env.compare (registry_get L.registry b.ref)
        (registry_get L.registry a.ref) LUA_OPLT)) ∧
    (LuaObject_richcmp env L a (.Lua b) Py_GE).map (fun r => r.1) =
      some (compare_result (env.compare (registry_get L.registry b.ref)
        (registry_get L.registry a.ref) LUA_OPLE)) ∧
    (LuaObject_richcmp env L a (.Lua b) Py_GT).map (fun r => r.1) =
      (LuaObject_richcmp env L b (.Lua a) Py_LT).map (fun r => r.1) ∧
    (LuaObject_richcmp env L a (.Lua b) Py_GE).map (fun r => r.1) =
      (LuaObject_richcmp env L b (.Lua a) Py_LE).map (fun r => r.1) ∧
    (LuaObject_richcmp env L a (.Lua b) Py_EQ).map (fun r => r.1) =
      some (compare_result (env.compare (registry_get L.registry a.ref)
        (registry_get L.registry b.ref) LUA_OPEQ)) ∧
    (LuaObject_richcmp env L a (.Lua b) Py_NE).map (fun r => r.1) =
      some (compare_result ((env.compare (registry_get L.registry a.ref)
        (registry_get L.registry b.ref) LUA_OPEQ).map (fun t => !t))) := by
  have hgt := richcmp_of_pcmp env L _ a b Py_GT _ (LuaObject_pcmp_swapped env L _ _).1
  have hge := richcmp_of_pcmp env L _ a b Py_GE _ (LuaObject_pcmp_swapped env L _ _).2
  have hlt := richcmp_of_pcmp env L _ b a Py_LT _ (LuaObject_pcmp_direct env L _ _).2.1
  have hle := richcmp_of_pcmp env L _ b a Py_LE _ (LuaObject_pcmp_direct env L _ _).2.2
  have heq := richcmp_of_pcmp env L _ a b Py_EQ _ (LuaObject_pcmp_direct env L _ _).1
  have hne := richcmp_of_pcmp env L _ a b Py_NE _ (LuaObject_pcmp_ne env L _ _)
  exact ⟨hgt, hge, hgt.trans hlt.symm, hge.trans hle.symm, heq, hne⟩
end LunaticPython
